import Mathlib

/-!
Verification development for the object-model recovery and emission engine
of decomp-toolkit (src/util/elf.rs, src/util/rso.rs).

The Rust sources are shallowly embedded: pure functions become Lean
functions, fallible code returns `Except`, machine integers are `Nat`/`Int`
with explicit `% 2^w` where overflow matters, and a Rust panic (e.g. an
out-of-bounds slice index) is modelled as the distinguished error
constructor `.panicked`, which is distinct from every typed error that the
Rust code reports through `anyhow::Result`.
-/

set_option maxRecDepth 200000

namespace Decomp

/-! ## Basic 32-bit helpers -/

/-- Wrap to u32, `x as u32` / u32 overflow semantics. -/
def u32 (x : Nat) : Nat := x % 4294967296

/-- Clear the low two bits: `x & !3` on an unsigned machine integer. -/
def alignDown4 (x : Nat) : Nat := 4 * (x / 4)

theorem alignDown4_mod : ∀ x, alignDown4 x % 4 = 0 := by
  intro x; simp [alignDown4, Nat.mul_mod_right]

/-- Big-endian u32 from four bytes: `u32::from_be_bytes`. -/
def be32 (a b c d : Nat) : Nat := ((a * 256 + b) * 256 + c) * 256 + d

/-! ## symbol_hash (src/util/rso.rs lines 213-222)

`fn symbol_hash(s: &str) -> u32` folds over the UTF-8 bytes of `s`:
`m = (hash << 4) + c; n = m & 0xF0000000; if n != 0 { m ^= n >> 24 }; m & !n`.
All arithmetic is on `u32`.
-/

/-- One step of the fold in `symbol_hash`. -/
def symbolHashStep (hash c : Nat) : Nat :=
  let m := u32 (hash * 16 + c)
  let n := m &&& 0xF0000000
  let m := if n ≠ 0 then m ^^^ (n >>> 24) else m
  m &&& (0xFFFFFFFF ^^^ n)

/-- The fold of `symbol_hash` over a list of bytes. -/
def symbolHashBytes (bs : List Nat) : Nat := bs.foldl symbolHashStep 0

/-- UTF-8 encoding of one scalar value (the byte sequence Rust's
`str::bytes` iterates). -/
def utf8Bytes (c : Char) : List Nat :=
  let v := c.toNat
  if v < 0x80 then [v]
  else if v < 0x800 then [0xC0 ||| (v >>> 6), 0x80 ||| (v &&& 0x3F)]
  else if v < 0x10000 then
    [0xE0 ||| (v >>> 12), 0x80 ||| ((v >>> 6) &&& 0x3F), 0x80 ||| (v &&& 0x3F)]
  else
    [0xF0 ||| (v >>> 18), 0x80 ||| ((v >>> 12) &&& 0x3F),
     0x80 ||| ((v >>> 6) &&& 0x3F), 0x80 ||| (v &&& 0x3F)]

/-- UTF-8 bytes of a string. -/
def strBytes (s : String) : List Nat := s.data.flatMap utf8Bytes

/-- `symbol_hash` from src/util/rso.rs. -/
def symbol_hash (s : String) : Nat := symbolHashBytes (strBytes s)

/-- Modelled from the spec: the canonical ELF symbol-hash algorithm
(System V ABI `elf_hash`), which the spec names as the reference that
`symbol_hash` must match.  `h = (h << 4) + c; g = h & 0xf0000000;
if g != 0 { h ^= g >> 24 }; h &= ~g` over the bytes of the name,
on 32-bit unsigned arithmetic. -/
def elfHashRef (bs : List Nat) : Nat :=
  bs.foldl
    (fun h c =>
      let h := u32 (h * 16 + c)
      let g := h &&& 0xF0000000
      let h := if g ≠ 0 then h ^^^ (g >>> 24) else h
      h &&& (0xFFFFFFFF ^^^ g))
    0

theorem symbolHashStep_eq_ref (h c : Nat) :
    symbolHashStep h c =
      (let h' := u32 (h * 16 + c)
       let g := h' &&& 0xF0000000
       let h'' := if g ≠ 0 then h' ^^^ (g >>> 24) else h'
       h'' &&& (0xFFFFFFFF ^^^ g)) := rfl

/-! ## Normalized object model (crate::obj, §3 of the spec)

The `obj` module itself is not under src/, but every field below is fixed by
how src/util/elf.rs and src/util/rso.rs construct and read these values.
The `demangled_name` field is omitted: demangling is an external collaborator
(`cwdemangle`), out of scope per the spec, and no claim concerns it.  The
`named_sections`, `known_functions` and `unresolved_relocations` fields are
always default-initialized by the code under src/ and never read; they are
omitted likewise. -/

inductive ObjArchitecture | PowerPc
deriving DecidableEq, Repr

inductive ObjKind | Executable | Relocatable
deriving DecidableEq, Repr

inductive ObjSectionKind | Code | Data | ReadOnlyData | Bss
deriving DecidableEq, Repr

inductive ObjRelocKind
  | Absolute | PpcAddr16Hi | PpcAddr16Ha | PpcAddr16Lo | PpcRel24 | PpcRel14 | PpcEmbSda21
deriving DecidableEq, Repr

/-- ObjSymbolKind; `Default::default()` is `Unknown` (used by process_rso). -/
inductive ObjSymbolKind | Unknown | Function | Object | Section
deriving DecidableEq, Repr

/-- ObjSymbolFlagSet: the five boolean attributes of ObjSymbolFlags. -/
structure ObjSymbolFlagSet where
  global : Bool
  localFlag : Bool
  weak : Bool
  common : Bool
  hidden : Bool
deriving DecidableEq, Repr

def noFlags : ObjSymbolFlagSet :=
  { global := false, localFlag := false, weak := false, common := false, hidden := false }

structure ObjReloc where
  kind : ObjRelocKind
  address : Nat
  target_symbol : Nat
  addend : Int
deriving DecidableEq, Repr

structure ObjSection where
  name : String
  kind : ObjSectionKind
  address : Nat
  size : Nat
  data : List Nat
  align : Nat
  index : Nat
  elf_index : Nat
  relocations : List ObjReloc
  original_address : Nat
  file_offset : Nat
  section_known : Bool
deriving DecidableEq, Repr

structure ObjSymbol where
  name : String
  address : Nat
  sectionIdx : Option Nat
  size : Nat
  size_known : Bool
  flags : ObjSymbolFlagSet
  kind : ObjSymbolKind
deriving DecidableEq, Repr

structure ObjInfo where
  module_id : Nat
  kind : ObjKind
  architecture : ObjArchitecture
  name : String
  symbols : List ObjSymbol
  sections : List ObjSection
  entry : Nat
  sda2_base : Option Nat
  sda_base : Option Nat
  stack_address : Option Nat
  stack_end : Option Nat
  db_stack_addr : Option Nat
  arena_lo : Option Nat
  arena_hi : Option Nat
  splits : List (Nat × List String)
  link_order : List String
deriving DecidableEq, Repr

/-! ## Input model for Decoder A (the `object` crate's parsed view)

process_elf consumes the `object` crate's API over a parsed ELF container.
The crate is an external collaborator ("binary reader primitives" in the
spec); its parsed view is the input of the embedding.  Section and symbol
table indices are the positions in the respective lists, which matches the
crate's dense numbering (process_elf itself indexes `section_indexes` and
`symbol_indexes` by `index().0` in lockstep with its own pushes). -/

inductive EArch | PowerPc | OtherArch
deriving DecidableEq, Repr

inductive EEndian | Big | Little
deriving DecidableEq, Repr

inductive EKind | Executable | Relocatable | OtherKind
deriving DecidableEq, Repr

/-- object::SectionKind, collapsed to the variants process_elf distinguishes. -/
inductive ESectionKind | Text | Data | ReadOnlyData | UninitializedData | OtherSection
deriving DecidableEq, Repr

/-- object::SymbolKind, collapsed to the variants process_elf distinguishes. -/
inductive ESymbolKind | Null | Text | Data | Section | File | Unknown | OtherSym
deriving DecidableEq, Repr

/-- object::SymbolSection. `OtherSec` covers `None`/`Unknown`. -/
inductive ESymbolSection
  | Undefined | Absolute | Common | SectionAt (idx : Nat) | OtherSec
deriving DecidableEq, Repr

/-- object::SymbolScope. -/
inductive EScope | UnknownScope | Compilation | Linkage | Dynamic
deriving DecidableEq, Repr

structure ElfSymbol where
  name : String
  kind : ESymbolKind
  address : Nat
  size : Nat
  symSection : ESymbolSection
  isGlobal : Bool
  isLocal : Bool
  isCommon : Bool
  isWeak : Bool
  scope : EScope
deriving DecidableEq, Repr

/-- `symbol.section_index()`: `Some` exactly for `SymbolSection::Section`. -/
def symSectionIndex (s : ElfSymbol) : Option Nat :=
  match s.symSection with
  | .SectionAt i => some i
  | _ => none

/-- object::RelocationKind as matched by to_obj_reloc. -/
inductive ERelocKind | Absolute | Elf (typ : Nat) | OtherRK
deriving DecidableEq, Repr

inductive ERelocTarget | Symbol (idx : Nat) | OtherRT
deriving DecidableEq, Repr

structure EReloc where
  kind : ERelocKind
  target : ERelocTarget
  addend : Int
  implicitAddend : Bool
deriving DecidableEq, Repr

structure ElfSection where
  name : String
  kind : ESectionKind
  address : Nat
  size : Nat
  data : List Nat
  align : Nat
  fileRange : Option (Nat × Nat)
  relocs : List (Nat × EReloc)
deriving DecidableEq, Repr

structure ElfFile where
  arch : EArch
  endianness : EEndian
  kind : EKind
  sections : List ElfSection
  symbols : List ElfSymbol
  entry : Nat
deriving DecidableEq, Repr

/-- Errors of the ELF codec: the typed anyhow failures of elf.rs, plus the
distinguished `panicked` for Rust panics (out-of-bounds slice/index). -/
inductive ElfErr
  | unsupportedArchitecture
  | unsupportedEncoding
  | unsupportedKind
  | sectionSymbolWithoutSection
  | invalidSectionIndex
  | duplicateFilename
  | failedToCreateEntry
  | unsupportedSymbolSection
  | emptySymbolName
  | unsupportedSymbolKind
  | unsupportedRelocationType
  | unhandledRelocationTarget
  | invalidSymbolIndex
  | strippedSymbolTarget
  | unsupportedImplicitRelocation
  | negativeSectionAddend
  | unhandledRelocationSymbolType
  | mismatchedSectionSize
  | panicked
deriving DecidableEq, Repr

/-- Rust `slice[i]` indexing: panics when out of bounds. -/
def idxP {α : Type} (l : List α) (i : Nat) : Except ElfErr α :=
  match l.get? i with
  | some a => Except.ok a
  | none => Except.error .panicked

/-! ## PPC relocation type codes (object::elf constants, ELF ABI values) -/

def R_PPC_ADDR32 : Nat := 1
def R_PPC_ADDR16_LO : Nat := 4
def R_PPC_ADDR16_HI : Nat := 5
def R_PPC_ADDR16_HA : Nat := 6
def R_PPC_REL24 : Nat := 10
def R_PPC_REL14 : Nat := 11
def R_PPC_UADDR32 : Nat := 24
def R_PPC_EMB_SDA21 : Nat := 109

/-! ## Decoder A: process_elf (src/util/elf.rs lines 49-317) -/

/-- Which raw section kinds are retained, and as what (lines 83-92). -/
def sectionKindMap : ESectionKind → Option ObjSectionKind
  | .Text => some .Code
  | .Data => some .Data
  | .ReadOnlyData => some .ReadOnlyData
  | .UninitializedData => some .Bss
  | .OtherSection => none

/-- One iteration of the section pass (lines 80-108). -/
def sectionStep (acc : List ObjSection × List (Option Nat)) (sec : ElfSection) :
    List ObjSection × List (Option Nat) :=
  match sectionKindMap sec.kind with
  | none => (acc.1, acc.2 ++ [none])
  | some k =>
      (acc.1 ++ [{ name := sec.name, kind := k, address := sec.address,
                   size := sec.size, data := sec.data, align := sec.align,
                   index := acc.1.length, elf_index := acc.2.length,
                   relocations := [], original_address := 0,
                   file_offset := (sec.fileRange.map Prod.fst).getD 0,
                   section_known := true }],
       acc.2 ++ [some acc.1.length])

/-- Section pass (lines 80-108): retain recognized kinds with dense indices,
and record original index → optional normalized index. -/
def sectionPass (secs : List ElfSection) : List ObjSection × List (Option Nat) :=
  secs.foldl sectionStep ([], [])

/-- to_obj_symbol (lines 619-669). -/
def to_obj_symbol (f : ElfFile) (sym : ElfSymbol) (sectionIndexes : List (Option Nat)) :
    Except ElfErr ObjSymbol :=
  let secR : Except ElfErr (Option (Nat × ElfSection)) :=
    match symSectionIndex sym with
    | some i =>
        match f.sections.get? i with
        | some s => Except.ok (some (i, s))
        | none => Except.error ElfErr.invalidSectionIndex
    | none => Except.ok none
  match secR with
  | .error e => .error e
  | .ok sec =>
    let nameR : Except ElfErr String :=
      match sym.kind with
      | .Section =>
          match sec with
          | some (_, s) => Except.ok s.name
          | none => Except.error ElfErr.sectionSymbolWithoutSection
      | _ => Except.ok sym.name
    match nameR with
    | .error e => .error e
    | .ok name =>
      if name = "" then Except.error ElfErr.emptySymbolName
      else
        let flags : ObjSymbolFlagSet :=
          { global := sym.isGlobal, localFlag := sym.isLocal, common := sym.isCommon,
            weak := sym.isWeak, hidden := sym.scope = EScope.Linkage }
        let sidxR : Except ElfErr (Option Nat) :=
          match sec with
          | some (i, _) => idxP sectionIndexes i
          | none => Except.ok none
        match sidxR with
        | .error e => .error e
        | .ok sectionIdx =>
          match sym.kind with
          | .Text =>
              Except.ok { name := name, address := sym.address, sectionIdx := sectionIdx,
                          size := sym.size, size_known := true, flags := flags,
                          kind := ObjSymbolKind.Function }
          | .Data =>
              Except.ok { name := name, address := sym.address, sectionIdx := sectionIdx,
                          size := sym.size, size_known := true, flags := flags,
                          kind := ObjSymbolKind.Object }
          | .Unknown =>
              Except.ok { name := name, address := sym.address, sectionIdx := sectionIdx,
                          size := sym.size, size_known := true, flags := flags,
                          kind := ObjSymbolKind.Unknown }
          | .Section =>
              Except.ok { name := name, address := sym.address, sectionIdx := sectionIdx,
                          size := sym.size, size_known := true, flags := flags,
                          kind := ObjSymbolKind.Section }
          | _ => Except.error ElfErr.unsupportedSymbolKind

/-- Boolean infix test on lists (Rust `str::contains`). -/
def listIsInfix {α : Type} [DecidableEq α] (t l : List α) : Bool :=
  match l with
  | [] => t.isEmpty
  | _ :: rest => t.isPrefixOf l || listIsInfix t rest

/-- The precompiled-header filename filter (lines 137-145). -/
def strContains (s t : String) : Bool := listIsInfix t.data s.data

def isPchName (s : String) : Bool :=
  s = "Precompiled.cpp" || s = "stdafx.cpp" || List.isSuffixOf ".h".data s.data
    || List.isPrefixOf "Pch.".data s.data
    || strContains s "precompiled_" || strContains s "Precompiled"
    || strContains s ".pch" || strContains s "_PCH."

/-- Boundary-recovery state machine (lines 38-45). -/
inductive BoundaryState
  | LookForFile (queue : List (Nat × String))
  | LookForSections (fileName : String)
  | FilesEnded
deriving DecidableEq, Repr

/-- State threaded through the symbol pass of process_elf. `sectionStarts`
models the IndexMap (insertion-ordered), `nameToIndex` the HashMap used for
duplicate-name resolution. -/
structure SymPassState where
  objName : String
  stackAddress : Option Nat
  stackEnd : Option Nat
  dbStackAddr : Option Nat
  arenaLo : Option Nat
  arenaHi : Option Nat
  sdaBase : Option Nat
  sda2Base : Option Nat
  symbols : List ObjSymbol
  symbolIndexes : List (Option Nat)
  sectionStarts : List (String × List (Nat × String))
  nameToIndex : List (String × Nat)
  boundary : BoundaryState
deriving DecidableEq, Repr

def initSymState : SymPassState :=
  { objName := "", stackAddress := none, stackEnd := none, dbStackAddr := none,
    arenaLo := none, arenaHi := none, sdaBase := none, sda2Base := none,
    symbols := [], symbolIndexes := [], sectionStarts := [], nameToIndex := [],
    boundary := .LookForFile [] }

/-- First-match lookup in an association list (IndexMap/HashMap lookup). -/
def alLookup {α : Type} (m : List (String × α)) (k : String) : Option α :=
  (m.find? (fun p => p.1 = k)).map Prod.snd

/-- Replace the value at the first occurrence of key `k` by `f` of it. -/
def alAdjust {α : Type} (m : List (String × α)) (k : String) (f : α → α) :
    List (String × α) :=
  match m with
  | [] => []
  | (k', v) :: rest =>
      if k' = k then (k', f v) :: rest else (k', v) :: alAdjust rest k f

/-- `name_to_index` bump (lines 154-158): entry-or-insert-0, then increment;
returns the incremented counter and the updated map. -/
def bumpName (m : List (String × Nat)) (k : String) : Nat × List (String × Nat) :=
  match alLookup m k with
  | some v => (v + 1, alAdjust m k (fun _ => v + 1))
  | none => (1, m ++ [(k, 1)])

/-- Linker-generated symbol capture (lines 117-128). -/
def captureLinker (st : SymPassState) (sym : ElfSymbol) : SymPassState :=
  match sym.name with
  | "_stack_addr" => { st with stackAddress := some (u32 sym.address) }
  | "_stack_end" => { st with stackEnd := some (u32 sym.address) }
  | "_db_stack_addr" => { st with dbStackAddr := some (u32 sym.address) }
  | "__ArenaLo" => { st with arenaLo := some (u32 sym.address) }
  | "__ArenaHi" => { st with arenaHi := some (u32 sym.address) }
  | "_SDA_BASE_" => { st with sdaBase := some (u32 sym.address) }
  | "_SDA2_BASE_" => { st with sda2Base := some (u32 sym.address) }
  | _ => st

/-- Fill in the first `(0, sectionName)` entry with `addr` (lines 229-235). -/
def fillZeroEntry (sectionName : String) (addr : Nat) :
    List (Nat × String) → List (Nat × String)
  | [] => []
  | (a, n) :: rest =>
      if a = 0 ∧ n = sectionName then (addr, n) :: rest
      else (a, n) :: fillZeroEntry sectionName addr rest

/-- The shared "Generate symbols" tail of the loop body (lines 250-258):
Null/File symbols and symbols of filtered-out sections get no normalized
index; everything else is converted and appended. -/
def genSymbols (f : ElfFile) (sectionIndexes : List (Option Nat))
    (st : SymPassState) (sym : ElfSymbol) : Except ElfErr SymPassState :=
  if sym.kind = ESymbolKind.Null ∨ sym.kind = ESymbolKind.File then
    Except.ok { st with symbolIndexes := st.symbolIndexes ++ [none] }
  else
    let droppedR : Except ElfErr Bool :=
      match symSectionIndex sym with
      | some i =>
          match idxP sectionIndexes i with
          | .error e => .error e
          | .ok v => Except.ok v.isNone
      | none => Except.ok false
    match droppedR with
    | .error e => .error e
    | .ok dropped =>
      if dropped then Except.ok { st with symbolIndexes := st.symbolIndexes ++ [none] }
      else
        match to_obj_symbol f sym sectionIndexes with
        | .error e => .error e
        | .ok os =>
            Except.ok { st with symbolIndexes := st.symbolIndexes ++ [some st.symbols.length],
                                symbols := st.symbols ++ [os] }

/-- One iteration of the symbol pass (lines 116-259). -/
def symStep (f : ElfFile) (kind : ObjKind) (sectionIndexes : List (Option Nat))
    (st0 : SymPassState) (sym : ElfSymbol) : Except ElfErr SymPassState :=
  let st := captureLinker st0 sym
  match sym.kind with
  | .File =>
      if isPchName sym.name then
        Except.ok { st with symbolIndexes := st.symbolIndexes ++ [none] }
      else
        let st := if kind = ObjKind.Relocatable then { st with objName := sym.name } else st
        let entryR : Except ElfErr (String × SymPassState) :=
          match alLookup st.sectionStarts sym.name with
          | some _ =>
              let bumped := bumpName st.nameToIndex sym.name
              let newName := sym.name ++ "_" ++ toString bumped.1
              match alLookup st.sectionStarts newName with
              | some _ => Except.error ElfErr.duplicateFilename
              | none =>
                  Except.ok (newName,
                    { st with nameToIndex := bumped.2,
                              sectionStarts := st.sectionStarts ++ [(newName, [])] })
          | none =>
              Except.ok (sym.name,
                { st with sectionStarts := st.sectionStarts ++ [(sym.name, [])] })
        match entryR with
        | .error e => .error e
        | .ok fnSt =>
          let fileName := fnSt.1
          let st := fnSt.2
          let st :=
            match st.boundary with
            | .LookForFile queue =>
                if queue.isEmpty then { st with boundary := .LookForSections fileName }
                else
                  { st with
                      sectionStarts :=
                        alAdjust st.sectionStarts fileName (fun l => l ++ queue),
                      boundary := .LookForFile [] }
            | .LookForSections _ => { st with boundary := .LookForSections fileName }
            | .FilesEnded => st
          Except.ok { st with symbolIndexes := st.symbolIndexes ++ [none] }
  | .Section =>
      match symSectionIndex sym with
      | none => Except.error ElfErr.sectionSymbolWithoutSection
      | some i =>
        match f.sections.get? i with
        | none => Except.error ElfErr.invalidSectionIndex
        | some sec =>
          let stR : Except ElfErr SymPassState :=
            match st.boundary with
            | .LookForFile queue =>
                Except.ok
                  { st with boundary := .LookForFile (queue ++ [(sym.address, sec.name)]) }
            | .LookForSections fileName =>
                match idxP sectionIndexes i with
                | .error e => .error e
                | .ok retained =>
                  if retained.isSome then
                    match alLookup st.sectionStarts fileName with
                    | none => Except.error ElfErr.failedToCreateEntry
                    | some _ =>
                        Except.ok
                          { st with
                              sectionStarts :=
                                alAdjust st.sectionStarts fileName
                                  (fun l => l ++ [(sym.address, sec.name)]) }
                  else Except.ok st
            | .FilesEnded => Except.ok st
          match stR with
          | .error e => .error e
          | .ok st => genSymbols f sectionIndexes st sym
  | _ =>
      let stR : Except ElfErr SymPassState :=
        match sym.symSection with
        | .Absolute => Except.ok { st with boundary := .FilesEnded }
        | .SectionAt i =>
            match st.boundary with
            | .LookForFile _ => Except.ok st
            | .LookForSections fileName =>
                match idxP sectionIndexes i with
                | .error e => .error e
                | .ok retained =>
                  if retained.isSome then
                    match alLookup st.sectionStarts fileName with
                    | none => Except.error ElfErr.failedToCreateEntry
                    | some cur =>
                      match f.sections.get? i with
                      | none => Except.error ElfErr.invalidSectionIndex
                      | some sec =>
                        if cur.any (fun p => p.1 = 0 ∧ p.2 = sec.name) then
                          Except.ok
                            { st with
                                sectionStarts :=
                                  alAdjust st.sectionStarts fileName
                                    (fillZeroEntry sec.name sym.address) }
                        else if cur.any (fun p => p.2 = sec.name) then
                          Except.ok st
                        else
                          Except.ok
                            { st with
                                sectionStarts :=
                                  alAdjust st.sectionStarts fileName
                                    (fun l => l ++ [(sym.address, sec.name)]) }
                  else Except.ok st
            | .FilesEnded => Except.ok st
        | .Undefined => Except.ok st
        | _ => Except.error ElfErr.unsupportedSymbolSection
      match stR with
      | .error e => .error e
      | .ok st => genSymbols f sectionIndexes st sym

/-- The whole symbol pass. -/
def processSymbols (f : ElfFile) (kind : ObjKind) (sectionIndexes : List (Option Nat))
    (syms : List ElfSymbol) (st : SymPassState) : Except ElfErr SymPassState :=
  syms.foldlM (symStep f kind sectionIndexes) st

/-- BTreeMap nested push: insert `v` at key `k`, keeping keys sorted
ascending, appending to the value list when `k` is present. -/
def btPush (m : List (Nat × List String)) (k : Nat) (v : String) :
    List (Nat × List String) :=
  match m with
  | [] => [(k, [v])]
  | (k', vs) :: rest =>
      if k < k' then (k, [v]) :: (k', vs) :: rest
      else if k = k' then (k', vs ++ [v]) :: rest
      else (k', vs) :: btPush rest k v

/-- Post-pass (lines 261-277): link order and address → file-name splits,
for the Executable kind only. -/
def linkOrderOf (ss : List (String × List (Nat × String))) : List String :=
  ss.map Prod.fst

def splitsOf (ss : List (String × List (Nat × String))) : List (Nat × List String) :=
  ss.foldl (fun m p => p.2.foldl (fun m' e => btPush m' (u32 e.1) p.1) m) []

/-- The relocation-kind normalization of to_obj_reloc (lines 678-690):
RelocationKind::Absolute and the six recognized PPC ELF type codes map to
the seven normalized kinds; everything else is unsupported. -/
def normalizeRelocKind : ERelocKind → Option ObjRelocKind
  | .Absolute => some ObjRelocKind.Absolute
  | .Elf k =>
      if k = R_PPC_ADDR16_LO then some ObjRelocKind.PpcAddr16Lo
      else if k = R_PPC_ADDR16_HI then some ObjRelocKind.PpcAddr16Hi
      else if k = R_PPC_ADDR16_HA then some ObjRelocKind.PpcAddr16Ha
      else if k = R_PPC_REL24 then some ObjRelocKind.PpcRel24
      else if k = R_PPC_REL14 then some ObjRelocKind.PpcRel14
      else if k = R_PPC_EMB_SDA21 then some ObjRelocKind.PpcEmbSda21
      else none
  | .OtherRK => none

/-- to_obj_reloc (lines 671-721).  The implicit-addend read
`section_data[address..address + 4]` panics when fewer than four bytes
remain, hence the `.panicked` outcome on the short-slice branch. -/
def to_obj_reloc (f : ElfFile) (symbolIndexes : List (Option Nat))
    (sectionData : List Nat) (address : Nat) (reloc : EReloc) :
    Except ElfErr ObjReloc :=
  match normalizeRelocKind reloc.kind with
  | none => Except.error ElfErr.unsupportedRelocationType
  | some relocKind =>
    match reloc.target with
    | .OtherRT => Except.error ElfErr.unhandledRelocationTarget
    | .Symbol symIdx =>
      match f.symbols.get? symIdx with
      | none => Except.error ElfErr.invalidSymbolIndex
      | some sym =>
        match idxP symbolIndexes symIdx with
        | .error e => .error e
        | .ok none => Except.error ElfErr.strippedSymbolTarget
        | .ok (some targetSymbol) =>
          let addendR : Except ElfErr Int :=
            match sym.kind with
            | .Text => Except.ok reloc.addend
            | .Data => Except.ok reloc.addend
            | .Unknown => Except.ok reloc.addend
            | .Section =>
                let implR : Except ElfErr Int :=
                  if reloc.implicitAddend then
                    match sectionData.drop address with
                    | a :: b :: c :: d :: _ =>
                        match relocKind with
                        | .Absolute => Except.ok ((be32 a b c d : Nat) : Int)
                        | _ => Except.error ElfErr.unsupportedImplicitRelocation
                    | _ => Except.error ElfErr.panicked
                  else Except.ok reloc.addend
                match implR with
                | .error e => .error e
                | .ok addend =>
                    if addend < 0 then Except.error ElfErr.negativeSectionAddend
                    else Except.ok addend
            | _ => Except.error ElfErr.unhandledRelocationSymbolType
          match addendR with
          | .error e => .error e
          | .ok addend =>
              Except.ok { kind := relocKind, address := alignDown4 address,
                          target_symbol := targetSymbol, addend := addend }

/-- One relocation conversion step (lines 286-289): convert and append. -/
def relocStep (f : ElfFile) (symbolIndexes : List (Option Nat)) (dat : List Nat)
    (acc : List ObjReloc) (ar : Nat × EReloc) : Except ElfErr (List ObjReloc) :=
  match to_obj_reloc f symbolIndexes dat ar.1 ar.2 with
  | .error e => .error e
  | .ok r => Except.ok (acc ++ [r])

/-- One section of the relocation pass (lines 280-293). -/
def relocSecStep (f : ElfFile) (sectionIndexes symbolIndexes : List (Option Nat))
    (secs : List ObjSection) (j : Nat) : Except ElfErr (List ObjSection) :=
  match f.sections.get? j with
  | none => Except.error ElfErr.panicked
  | some esec =>
    match idxP sectionIndexes j with
    | .error e => .error e
    | .ok none => Except.ok secs
    | .ok (some i) =>
      match secs.get? i with
      | none => Except.ok secs
      | some osec =>
        match esec.relocs.foldlM (relocStep f symbolIndexes osec.data)
            osec.relocations with
        | .error e => .error e
        | .ok rels => Except.ok (secs.set i { osec with relocations := rels })

/-- Relocation pass (lines 279-294). -/
def relocPass (f : ElfFile) (sectionIndexes symbolIndexes : List (Option Nat))
    (sections0 : List ObjSection) : Except ElfErr (List ObjSection) :=
  (List.range f.sections.length).foldlM (relocSecStep f sectionIndexes symbolIndexes)
    sections0

/-- process_elf (lines 49-317).  ENABLE_DWARF is false in the source, so the
debug-section branch is dead code and not modelled. -/
def process_elf (f : ElfFile) : Except ElfErr ObjInfo :=
  match f.arch with
  | .OtherArch => Except.error ElfErr.unsupportedArchitecture
  | .PowerPc =>
    if f.endianness ≠ EEndian.Big then Except.error ElfErr.unsupportedEncoding
    else
      let kindR : Except ElfErr ObjKind :=
        match f.kind with
        | .Executable => Except.ok ObjKind.Executable
        | .Relocatable => Except.ok ObjKind.Relocatable
        | .OtherKind => Except.error ElfErr.unsupportedKind
      match kindR with
      | .error e => .error e
      | .ok kind =>
        let sp := sectionPass f.sections
        match processSymbols f kind sp.2 f.symbols initSymState with
        | .error e => .error e
        | .ok st =>
          match relocPass f sp.2 st.symbolIndexes sp.1 with
          | .error e => .error e
          | .ok sections =>
            Except.ok
              { module_id := 0, kind := kind, architecture := ObjArchitecture.PowerPc,
                name := st.objName, symbols := st.symbols, sections := sections,
                entry := f.entry, sda2_base := st.sda2Base, sda_base := st.sdaBase,
                stack_address := st.stackAddress, stack_end := st.stackEnd,
                db_stack_addr := st.dbStackAddr, arena_lo := st.arenaLo,
                arena_hi := st.arenaHi,
                splits := if kind = ObjKind.Executable then splitsOf st.sectionStarts else [],
                link_order :=
                  if kind = ObjKind.Executable then linkOrderOf st.sectionStarts else [] }

/-! ## Decoder B: process_rso (src/util/rso.rs lines 15-211)

process_rso reads directly from the mapped byte buffer through a big-endian
cursor, so this decoder is embedded at the byte level: the input is the list
of file bytes.  `map_file`/`map_reader` (crate::util::file, not under src/)
are the identity on that buffer plus a cursor position.  The three unbounded
`while position < end` loops advance the position by a fixed positive amount
every iteration, so running them with fuel `end + 1` can never hit the
`.fuelExhausted` case; it exists only to make the recursion structural. -/

structure RsoReader where
  data : List Nat
  pos : Nat
deriving DecidableEq, Repr

inductive RsoErr
  | eof
  | nextNotZero
  | prevNotZero
  | unsupportedVersion
  | bssSectionNotZero
  | mismatchedBssSize
  | missingEntrySection
  | fuelExhausted
deriving DecidableEq, Repr

/-- `read_u8`. -/
def ru8 (r : RsoReader) : Except RsoErr (Nat × RsoReader) :=
  match r.data.get? r.pos with
  | some b => Except.ok (b, ⟨r.data, r.pos + 1⟩)
  | none => Except.error .eof

/-- `read_u32::<BigEndian>`. -/
def ru32 (r : RsoReader) : Except RsoErr (Nat × RsoReader) :=
  match r.data.get? r.pos, r.data.get? (r.pos + 1),
        r.data.get? (r.pos + 2), r.data.get? (r.pos + 3) with
  | some a, some b, some c, some d => Except.ok (be32 a b c d, ⟨r.data, r.pos + 4⟩)
  | _, _, _, _ => Except.error .eof

/-- `read_exact` into a buffer of `n` bytes at the given position. -/
def readExact (data : List Nat) (off n : Nat) : Except RsoErr (List Nat) :=
  if n = 0 then Except.ok []
  else if off + n ≤ data.length then Except.ok ((data.drop off).take n)
  else Except.error .eof

/-- Bytes of a NUL-terminated string starting at `pos` (fuel-structural;
fuel `data.length + 1` always suffices since the position grows by one per
step and reading past the end fails). -/
def cstrBytes (fuel : Nat) (data : List Nat) (pos : Nat) : Except RsoErr (List Nat) :=
  match fuel with
  | 0 => Except.error .fuelExhausted
  | fuel + 1 =>
      match data.get? pos with
      | none => Except.error .eof
      | some 0 => Except.ok []
      | some b => do pure (b :: (← cstrBytes fuel data (pos + 1)))

def strOfBytes (bs : List Nat) : String := String.mk (bs.map Char.ofNat)

/-- Modelled from the spec: `read_c_string` (crate::util::file, not under
src/) resolves a name "from the string blob at name-table-base + per-entry
offset" as a NUL-terminated C string, leaving the cursor position intact. -/
def read_c_string (data : List Nat) (off : Nat) : Except RsoErr String := do
  let bs ← cstrBytes (data.length + 1) data off
  pure (strOfBytes bs)

/-- Modelled from the spec: `read_string` (crate::util::file, not under
src/) reads the module name as exactly `len` bytes at `off`. -/
def read_string (data : List Nat) (off len : Nat) : Except RsoErr String := do
  let bs ← readExact data off len
  pure (strOfBytes bs)

/-- One section-table entry of process_rso (lines 50-95).  Bit 0 of
`offset` is the executable flag; the low two bits are then masked off
(`offset & !3`); `size == 0` entries are dropped; a masked offset of 0
yields a Bss section whose bytes are not read from the file.  Returns the
updated section list and (u32-wrapping) bss total. -/
def rsoSectionEntry (idx offset size : Nat) (fileData : List Nat)
    (acc : List ObjSection) (tb : Nat) : Except RsoErr (List ObjSection × Nat) :=
  if size = 0 then Except.ok (acc, tb)
  else do
    let exec := offset % 2 = 1
    let offM := alignDown4 offset
    let data ← if offM = 0 then pure [] else readExact fileData offM size
    let sec : ObjSection :=
      { name := ".section" ++ toString idx,
        kind := if offM = 0 then .Bss else if exec then .Code else .Data,
        address := 0, size := size, data := data, align := 0,
        index := acc.length, elf_index := idx, relocations := [],
        original_address := 0, file_offset := offM, section_known := false }
    Except.ok (acc ++ [sec], if offM = 0 then u32 (tb + size) else tb)

/-- The section-table loop of process_rso (lines 49-96). -/
def rsoSectionLoop : Nat → Nat → RsoReader → List ObjSection → Nat →
    Except RsoErr (List ObjSection × Nat × RsoReader)
  | 0, _, r, acc, tb => Except.ok (acc, tb, r)
  | n + 1, idx, r, acc, tb => do
      let (offset, r) ← ru32 r
      let (size, r) ← ru32 r
      let st ← rsoSectionEntry idx offset size r.data acc tb
      rsoSectionLoop n (idx + 1) r st.1 st.2

/-- The `add_symbol` closure (lines 105-124): synthesizes a Global Function
symbol when the designated section index is nonzero. -/
def rsoAddSymbol (sections : List ObjSection) (sectionIdx offset : Nat)
    (name : String) (symbols : List ObjSymbol) : Except RsoErr (List ObjSymbol) :=
  if sectionIdx > 0 then
    match sections.find? (fun s => s.elf_index = sectionIdx) with
    | none => Except.error .missingEntrySection
    | some sec =>
        Except.ok (symbols ++
          [{ name := name, address := offset, sectionIdx := some sec.index,
             size := 0, size_known := false,
             flags := { noFlags with global := true }, kind := .Function }])
  else Except.ok symbols

/-- External-relocation loop (lines 129-143): diagnostics only; three u32
reads per record. -/
def extRelLoop : Nat → Nat → RsoReader → Except RsoErr RsoReader
  | 0, endPos, r => if r.pos < endPos then Except.error .fuelExhausted else Except.ok r
  | fuel + 1, endPos, r =>
      if r.pos < endPos then do
        let (_offset, r) ← ru32 r
        let (_idAndType, r) ← ru32 r
        let (_symOffset, r) ← ru32 r
        extRelLoop fuel endPos r
      else Except.ok r

/-- Export-table loop (lines 145-176): each entry yields a normalized
Symbol with default flags and kind; the stored hash is only recomputed for
a consistency log (not fatal), which has no observable effect here. -/
def exportLoop : Nat → Nat → Nat → RsoReader → List ObjSection → List ObjSymbol →
    Except RsoErr (List ObjSymbol × RsoReader)
  | 0, endPos, _, r, _, syms =>
      if r.pos < endPos then Except.error .fuelExhausted else Except.ok (syms, r)
  | fuel + 1, endPos, nameBase, r, sections, syms =>
      if r.pos < endPos then do
        let (nameOff, r) ← ru32 r
        let name ← read_c_string r.data (u32 (nameBase + nameOff))
        let (symOff, r) ← ru32 r
        let (sectionIdx, r) ← ru32 r
        let (_hashN, r) ← ru32 r
        let sec := (sections.find? (fun s => s.elf_index = sectionIdx)).map (fun s => s.index)
        exportLoop fuel endPos nameBase r sections
          (syms ++ [{ name := name, address := symOff, sectionIdx := sec, size := 0,
                      size_known := false, flags := noFlags, kind := .Unknown }])
      else Except.ok (syms, r)

/-- Import-table loop (lines 177-184): diagnostics only. -/
def importLoop : Nat → Nat → Nat → RsoReader → Except RsoErr RsoReader
  | 0, endPos, _, r => if r.pos < endPos then Except.error .fuelExhausted else Except.ok r
  | fuel + 1, endPos, nameBase, r =>
      if r.pos < endPos then do
        let (nameOff, r) ← ru32 r
        let _name ← read_c_string r.data (u32 (nameBase + nameOff))
        let (_symOffset, r) ← ru32 r
        let (_sectionIdx, r) ← ru32 r
        importLoop fuel endPos nameBase r
      else Except.ok r

/-- The fixed-layout module header (spec §4.2); field order and widths as
read by lines 19-44.  The fields forced to constants by `ensure!` are kept
so the validation can be stated. -/
structure RsoHeader where
  next : Nat
  prev : Nat
  numSections : Nat
  sectionInfoOffset : Nat
  nameOffset : Nat
  nameSize : Nat
  version : Nat
  bssSize : Nat
  prologSection : Nat
  epilogSection : Nat
  unresolvedSection : Nat
  bssSection : Nat
  prologOffset : Nat
  epilogOffset : Nat
  unresolvedOffset : Nat
  internalRelOffset : Nat
  internalRelSize : Nat
  externalRelOffset : Nat
  externalRelSize : Nat
  exportTableOffset : Nat
  exportTableSize : Nat
  exportTableNameOffset : Nat
  importTableOffset : Nat
  importTableSize : Nat
  importTableNameOffset : Nat
deriving DecidableEq, Repr

/-- Header reads and validation of process_rso (lines 19-44), with the
`ensure!` checks interleaved exactly as in the source. -/
def readRsoHeader (data : List Nat) : Except RsoErr RsoHeader := do
  let r : RsoReader := ⟨data, 0⟩
  let (next, r) ← ru32 r
  if next ≠ 0 then Except.error .nextNotZero else do
  let (prev, r) ← ru32 r
  if prev ≠ 0 then Except.error .prevNotZero else do
  let (numSections, r) ← ru32 r
  let (sectionInfoOffset, r) ← ru32 r
  let (nameOffset, r) ← ru32 r
  let (nameSize, r) ← ru32 r
  let (version, r) ← ru32 r
  if version ≠ 1 then Except.error .unsupportedVersion else do
  let (bssSize, r) ← ru32 r
  let (prologSection, r) ← ru8 r
  let (epilogSection, r) ← ru8 r
  let (unresolvedSection, r) ← ru8 r
  let (bssSection, r) ← ru8 r
  if bssSection ≠ 0 then Except.error .bssSectionNotZero else do
  let (prologOffset, r) ← ru32 r
  let (epilogOffset, r) ← ru32 r
  let (unresolvedOffset, r) ← ru32 r
  let (internalRelOffset, r) ← ru32 r
  let (internalRelSize, r) ← ru32 r
  let (externalRelOffset, r) ← ru32 r
  let (externalRelSize, r) ← ru32 r
  let (exportTableOffset, r) ← ru32 r
  let (exportTableSize, r) ← ru32 r
  let (exportTableNameOffset, r) ← ru32 r
  let (importTableOffset, r) ← ru32 r
  let (importTableSize, r) ← ru32 r
  let (importTableNameOffset, _r) ← ru32 r
  pure { next := next, prev := prev, numSections := numSections,
         sectionInfoOffset := sectionInfoOffset, nameOffset := nameOffset,
         nameSize := nameSize, version := version, bssSize := bssSize,
         prologSection := prologSection, epilogSection := epilogSection,
         unresolvedSection := unresolvedSection, bssSection := bssSection,
         prologOffset := prologOffset, epilogOffset := epilogOffset,
         unresolvedOffset := unresolvedOffset, internalRelOffset := internalRelOffset,
         internalRelSize := internalRelSize, externalRelOffset := externalRelOffset,
         externalRelSize := externalRelSize, exportTableOffset := exportTableOffset,
         exportTableSize := exportTableSize,
         exportTableNameOffset := exportTableNameOffset,
         importTableOffset := importTableOffset, importTableSize := importTableSize,
         importTableNameOffset := importTableNameOffset }

/-- process_rso (lines 15-211). -/
def process_rso (data : List Nat) : Except RsoErr ObjInfo := do
  let hdr ← readRsoHeader data
  let r : RsoReader := ⟨data, hdr.sectionInfoOffset⟩
  let slr ← rsoSectionLoop hdr.numSections 0 r [] 0
  let sections := slr.1
  let totalBssSize := slr.2.1
  if totalBssSize ≠ hdr.bssSize then Except.error .mismatchedBssSize else do
  let symbols ← rsoAddSymbol sections hdr.prologSection hdr.prologOffset "_prolog" []
  let symbols ← rsoAddSymbol sections hdr.epilogSection hdr.epilogOffset "_epilog" symbols
  let symbols ← rsoAddSymbol sections hdr.unresolvedSection hdr.unresolvedOffset
    "_unresolved" symbols
  let endExt := u32 (hdr.externalRelOffset + hdr.externalRelSize)
  let _r ← extRelLoop (endExt + 1) endExt ⟨data, hdr.externalRelOffset⟩
  let endExp := u32 (hdr.exportTableOffset + hdr.exportTableSize)
  let esr ← exportLoop (endExp + 1) endExp hdr.exportTableNameOffset
    ⟨data, hdr.exportTableOffset⟩ sections symbols
  let symbols := esr.1
  let endImp := u32 (hdr.importTableOffset + hdr.importTableSize)
  let _r ← importLoop (endImp + 1) endImp hdr.importTableNameOffset
    ⟨data, hdr.importTableOffset⟩
  let name ← if hdr.nameOffset = 0 then pure ""
             else read_string data hdr.nameOffset hdr.nameSize
  pure { module_id := 0, kind := .Relocatable, architecture := .PowerPc, name := name,
         symbols := symbols, sections := sections, entry := 0,
         sda2_base := none, sda_base := none, stack_address := none, stack_end := none,
         db_stack_addr := none, arena_lo := none, arena_hi := none,
         splits := [], link_order := [] }

/-! ## Derived definitions used by the verification -/

/-- Shape of the ObjSection built by one nonzero-size section-table entry of
process_rso (see rsoSectionEntry). -/
def rsoSecOf (idx offset size : Nat) (dat : List Nat) (pos : Nat) : ObjSection :=
  { name := ".section" ++ toString idx,
    kind := if alignDown4 offset = 0 then .Bss else if offset % 2 = 1 then .Code else .Data,
    address := 0, size := size, data := dat, align := 0, index := pos, elf_index := idx,
    relocations := [], original_address := 0, file_offset := alignDown4 offset,
    section_known := false }

/-- Relocation emission computation of write_elf (lines 531-564): the
on-disk `(r_offset, r_type)` pair for one normalized relocation.
`r_offset & 3 == 0` is `address % 4 = 0`; `(r_offset & !3) + 2` is
`alignDown4 address + 2`. -/
def relocTypeAndOffset (reloc : ObjReloc) : Nat × Nat :=
  match reloc.kind with
  | .Absolute =>
      (reloc.address, if reloc.address % 4 = 0 then R_PPC_ADDR32 else R_PPC_UADDR32)
  | .PpcAddr16Hi => (alignDown4 reloc.address + 2, R_PPC_ADDR16_HI)
  | .PpcAddr16Ha => (alignDown4 reloc.address + 2, R_PPC_ADDR16_HA)
  | .PpcAddr16Lo => (alignDown4 reloc.address + 2, R_PPC_ADDR16_LO)
  | .PpcRel24 => (alignDown4 reloc.address, R_PPC_REL24)
  | .PpcRel14 => (alignDown4 reloc.address, R_PPC_REL14)
  | .PpcEmbSda21 => (alignDown4 reloc.address + 2, R_PPC_EMB_SDA21)

/-- The u32-wrapping sum of the sizes of the Bss (implicit, zero-filled)
sections, exactly as `total_bss_size` accumulates it. -/
def rsoBssSum (secs : List ObjSection) : Nat :=
  secs.foldl (fun a s => if s.kind = ObjSectionKind.Bss then u32 (a + s.size) else a) 0

/-! ## Concrete test containers -/

/-- Big-endian byte encoding of a u32 value. -/
def u32beBytes (v : Nat) : List Nat :=
  [v / 16777216 % 256, v / 65536 % 256, v / 256 % 256, v % 256]

/-- An 88-byte module header with the given section/name/bss/export fields;
link pointers zero, version 1, entry points absent, and empty tables for
the external relocations and the imports. -/
def mkRsoHeaderBytes (numSections sectionInfoOffset nameOffset nameSize bssSize
    exportOff exportSize exportNameOff : Nat) : List Nat :=
  u32beBytes 0 ++ u32beBytes 0 ++ u32beBytes numSections ++ u32beBytes sectionInfoOffset
    ++ u32beBytes nameOffset ++ u32beBytes nameSize ++ u32beBytes 1 ++ u32beBytes bssSize
    ++ [0, 0, 0, 0] ++ u32beBytes 0 ++ u32beBytes 0 ++ u32beBytes 0
    ++ u32beBytes 0 ++ u32beBytes 0
    ++ u32beBytes 88 ++ u32beBytes 0
    ++ u32beBytes exportOff ++ u32beBytes exportSize ++ u32beBytes exportNameOff
    ++ u32beBytes 88 ++ u32beBytes 0 ++ u32beBytes 0

/-- A minimal well-formed module: empty section and export tables. -/
def rsoBufMinimal : List Nat := mkRsoHeaderBytes 0 88 0 0 0 88 0 0

/-- A module with one export entry whose name offset points at a NUL byte,
so the exported symbol's name is empty. -/
def rsoBufEmptyName : List Nat :=
  mkRsoHeaderBytes 0 88 0 0 0 88 16 104
    ++ u32beBytes 0 ++ u32beBytes 16 ++ u32beBytes 0 ++ u32beBytes 0 ++ [0]

/-- A module with one section entry with offset 98 (bit 1 set, bit 0 clear)
and size 4; its bytes live at file offset 96. -/
def rsoBufMaskedOffset : List Nat :=
  mkRsoHeaderBytes 1 88 0 0 0 88 0 0
    ++ u32beBytes 98 ++ u32beBytes 4 ++ [170, 187, 204, 221]

/-- A module with two implicit (Bss) sections of size 2^31 each and a
declared bss size of 0: the u32 accumulator wraps to 0 and the check
passes. -/
def rsoBufWrapBss : List Nat :=
  mkRsoHeaderBytes 2 88 0 0 0 88 0 0
    ++ u32beBytes 0 ++ u32beBytes 2147483648
    ++ u32beBytes 0 ++ u32beBytes 2147483648

/-- An ELF input with a section-kind relocation carrying an implicit addend
whose address (2) lies within 4 bytes of the end of the 4-byte section
data: the slice `section_data[2..6]` is out of bounds. -/
def elfShortImplicit : ElfFile :=
  { arch := .PowerPc, endianness := .Big, kind := .Relocatable,
    sections :=
      [{ name := ".data", kind := .Data, address := 0, size := 4, data := [0, 0, 0, 0],
         align := 4, fileRange := some (52, 4),
         relocs := [(2, { kind := .Absolute, target := .Symbol 0, addend := 0,
                          implicitAddend := true })] }],
    symbols :=
      [{ name := "", kind := .Section, address := 0, size := 0, symSection := .SectionAt 0,
         isGlobal := false, isLocal := true, isCommon := false, isWeak := false,
         scope := .Compilation }],
    entry := 0 }

/-- A small well-formed relocatable ELF input that decodes successfully:
one Code section with one explicit-addend ADDR16_LO relocation against a
function symbol. -/
def elfExampleInput : ElfFile :=
  { arch := .PowerPc, endianness := .Big, kind := .Relocatable,
    sections :=
      [{ name := ".text", kind := .Text, address := 256, size := 8,
         data := [0, 1, 2, 3, 4, 5, 6, 7], align := 4, fileRange := some (64, 8),
         relocs := [(4, { kind := .Elf 4, target := .Symbol 0, addend := 2,
                          implicitAddend := false })] }],
    symbols :=
      [{ name := "foo", kind := .Text, address := 256, size := 8,
         symSection := .SectionAt 0, isGlobal := true, isLocal := false,
         isCommon := false, isWeak := false, scope := .Dynamic }],
    entry := 0 }

/-- The Object that elfExampleInput decodes to. -/
def elfExampleObj : ObjInfo :=
  { module_id := 0, kind := ObjKind.Relocatable, architecture := ObjArchitecture.PowerPc,
    name := "",
    symbols := [{ name := "foo", address := 256, sectionIdx := some 0, size := 8,
                  size_known := true,
                  flags := { global := true, localFlag := false, weak := false,
                             common := false, hidden := false },
                  kind := ObjSymbolKind.Function }],
    sections := [{ name := ".text", kind := ObjSectionKind.Code, address := 256,
                   size := 8, data := [0, 1, 2, 3, 4, 5, 6, 7], align := 4, index := 0,
                   elf_index := 0,
                   relocations := [{ kind := ObjRelocKind.PpcAddr16Lo, address := 4,
                                     target_symbol := 0, addend := 2 }],
                   original_address := 0, file_offset := 64, section_known := true }],
    entry := 0, sda2_base := none, sda_base := none, stack_address := none,
    stack_end := none, db_stack_addr := none, arena_lo := none, arena_hi := none,
    splits := [], link_order := [] }

/-- A file symbol as emitted by a compiler: STT_FILE, local, undefined section. -/
def fileSym (fn : String) : ElfSymbol :=
  { name := fn, kind := ESymbolKind.File, address := 0, size := 0,
    symSection := ESymbolSection.Undefined, isGlobal := false, isLocal := true,
    isCommon := false, isWeak := false, scope := EScope.Compilation }

/-- A section symbol (STT_SECTION) at address `a` for section table index `i`. -/
def secSym (a i : Nat) : ElfSymbol :=
  { name := "", kind := ESymbolKind.Section, address := a, size := 0,
    symSection := ESymbolSection.SectionAt i, isGlobal := false, isLocal := true,
    isCommon := false, isWeak := false, scope := EScope.Compilation }

/-- Name of section `i` of the input file (empty when out of range). -/
def secNameOf (f : ElfFile) (i : Nat) : String :=
  match f.sections.get? i with
  | some s => s.name
  | none => ""

/-- The symbol-pass state reached by the boundary-recovery witness stream. -/
def c2WitnessState : SymPassState :=
  { objName := "file.c", stackAddress := none, stackEnd := none, dbStackAddr := none,
    arenaLo := none, arenaHi := none, sdaBase := none, sda2Base := none,
    symbols := [{ name := ".text", address := 5, sectionIdx := some 0, size := 0,
                  size_known := true,
                  flags := { global := false, localFlag := true, weak := false,
                             common := false, hidden := false },
                  kind := ObjSymbolKind.Section }],
    symbolIndexes := [none, some 0],
    sectionStarts := [("file.c", [(5, ".text")])],
    nameToIndex := [],
    boundary := BoundaryState.LookForSections "file.c" }


/-! ## Encoder (write_elf, lines 319-617) and the re-parse of its output

write_elf is modelled at the ELF structure level: the RawElf it produces
holds exactly the fields the writer emits (section headers, section data,
symbol records, relocation entries); byte serialization offsets and string
tables are not modelled.  The single failure path is the section-size
ensure.  reparseElf models how the object crate presents the written file
back to process_elf; the metadata sections (symtab, string tables, .rela)
are dropped by the section pass and referenced by no symbol or relocation,
so they are omitted from the reparsed view. -/

structure RawSym where
  name : String
  sectionIdx : Option Nat
  stInfo : Nat
  stOther : Nat
  stShndx : Nat
  value : Nat
  size : Nat
deriving DecidableEq, Repr

structure RawRela where
  offset : Nat
  sym : Nat
  typ : Nat
  addend : Int
deriving DecidableEq, Repr

structure RawSection where
  name : String
  shType : Nat
  shFlags : Nat
  addr : Nat
  size : Nat
  data : List Nat
  align : Nat
  relas : List RawRela
deriving DecidableEq, Repr

structure RawElf where
  kind : ObjKind
  entry : Nat
  sections : List RawSection
  symbols : List RawSym
deriving DecidableEq, Repr

def SHN_ABS : Nat := 65521

def i32wrap (x : Int) : Int := (x + 2147483648) % 4294967296 - 2147483648

def encodeReloc (symbolOffset : Nat) (r : ObjReloc) : RawRela :=
  { offset := u32 (relocTypeAndOffset r).1, sym := r.target_symbol + symbolOffset + 1,
    typ := (relocTypeAndOffset r).2, addend := i32wrap r.addend }

def encSec (symbolOffset : Nat) (sec : ObjSection) : RawSection :=
  match sec.kind with
  | .Bss =>
      { name := sec.name, shType := 8, shFlags := 3, addr := u32 sec.address,
        size := u32 sec.size, data := [], align := u32 sec.align,
        relas := sec.relocations.map (encodeReloc symbolOffset) }
  | k =>
      { name := sec.name, shType := 1,
        shFlags := match k with | .Code => 6 | .ReadOnlyData => 2 | _ => 3,
        addr := u32 sec.address, size := u32 sec.size, data := sec.data,
        align := u32 sec.align,
        relas := sec.relocations.map (encodeReloc symbolOffset) }

def encodeSymbol (numSections : Nat) (sym : ObjSymbol) : RawSym :=
  let sectionIdx : Option Nat :=
    match sym.sectionIdx with
    | some i => if i < numSections then some i else none
    | none => none
  let stType : Nat :=
    match sym.kind with
    | .Unknown => 0
    | .Function => 2
    | .Object => if sym.flags.common then 5 else 1
    | .Section => 3
  let stBind : Nat :=
    if sym.flags.weak then 2 else if sym.flags.localFlag then 0 else 1
  { name := sym.name, sectionIdx := sectionIdx,
    stInfo := stBind * 16 + stType,
    stOther := if sym.flags.hidden then 2 else 0,
    stShndx := if sectionIdx.isSome then 0
      else if sym.address ≠ 0 then SHN_ABS else 0,
    value := u32 sym.address, size := u32 sym.size }

def nullRawSym : RawSym :=
  { name := "", sectionIdx := none, stInfo := 0, stOther := 0, stShndx := 0,
    value := 0, size := 0 }

def fileRawSym (name : String) : RawSym :=
  { name := name, sectionIdx := none, stInfo := 20, stOther := 0, stShndx := SHN_ABS,
    value := 0, size := 0 }

def writtenElf (obj : ObjInfo) (symbolOffset : Nat) : RawElf :=
  { kind := obj.kind, entry := u32 obj.entry,
    sections := obj.sections.map (encSec symbolOffset),
    symbols := nullRawSym ::
      ((if obj.name = "" then [] else [fileRawSym obj.name])
        ++ obj.symbols.map (encodeSymbol obj.sections.length)) }

def write_elf (obj : ObjInfo) : Except ElfErr RawElf :=
  if obj.sections.all
      (fun s => decide (s.kind = ObjSectionKind.Bss) || decide (s.data.length = s.size)) then
    Except.ok (writtenElf obj (if obj.name = "" then 0 else 1))
  else Except.error ElfErr.mismatchedSectionSize

def reparseSectionKind (s : RawSection) : ESectionKind :=
  if s.shType = 1 then
    if s.shFlags / 2 % 2 = 1 then
      if s.shFlags / 4 % 2 = 1 then ESectionKind.Text
      else if s.shFlags % 2 = 1 then ESectionKind.Data
      else ESectionKind.ReadOnlyData
    else ESectionKind.OtherSection
  else if s.shType = 8 then
    if s.shFlags / 2 % 2 = 1 then ESectionKind.UninitializedData
    else ESectionKind.OtherSection
  else ESectionKind.OtherSection

def reparseRela (ra : RawRela) : Nat × EReloc :=
  (ra.offset,
   { kind := if ra.typ = 1 then ERelocKind.Absolute else ERelocKind.Elf ra.typ,
     target := ERelocTarget.Symbol ra.sym, addend := ra.addend,
     implicitAddend := false })

def reparseSection (s : RawSection) : ElfSection :=
  { name := s.name, kind := reparseSectionKind s, address := s.addr, size := s.size,
    data := s.data, align := s.align, fileRange := some (0, s.size),
    relocs := s.relas.map reparseRela }

def reparseSymbol (pos : Nat) (s : RawSym) : ElfSymbol :=
  let bind := s.stInfo / 16
  let typ := s.stInfo % 16
  { name := s.name,
    kind :=
      if pos = 0 ∧ typ = 0 then ESymbolKind.Null
      else if typ = 0 then ESymbolKind.Unknown
      else if typ = 1 ∨ typ = 5 then ESymbolKind.Data
      else if typ = 2 then ESymbolKind.Text
      else if typ = 3 then ESymbolKind.Section
      else if typ = 4 then ESymbolKind.File
      else ESymbolKind.OtherSym,
    address := s.value, size := s.size,
    symSection :=
      match s.sectionIdx with
      | some i => ESymbolSection.SectionAt i
      | none =>
          if s.stShndx = SHN_ABS then ESymbolSection.Absolute
          else ESymbolSection.Undefined,
    isGlobal := decide (bind ≠ 0),
    isLocal := decide (bind = 0),
    isCommon := decide (s.sectionIdx = none ∧ s.stShndx = 65522),
    isWeak := decide (bind = 2),
    scope :=
      if s.sectionIdx = none ∧ s.stShndx = 0 then EScope.UnknownScope
      else if bind = 0 then EScope.Compilation
      else if s.stOther % 4 = 1 ∨ s.stOther % 4 = 2 then EScope.Linkage
      else EScope.Dynamic }

def reparseSymbols (pos : Nat) : List RawSym → List ElfSymbol
  | [] => []
  | s :: rest => reparseSymbol pos s :: reparseSymbols (pos + 1) rest

def reparseElf (raw : RawElf) : ElfFile :=
  { arch := EArch.PowerPc, endianness := EEndian.Big,
    kind := match raw.kind with
      | ObjKind.Executable => EKind.Executable
      | ObjKind.Relocatable => EKind.Relocatable,
    sections := raw.sections.map reparseSection,
    symbols := reparseSymbols 0 raw.symbols,
    entry := raw.entry }

def roundTrip (obj : ObjInfo) : Except ElfErr ObjInfo :=
  match write_elf obj with
  | .error e => .error e
  | .ok raw => process_elf (reparseElf raw)

def sectionView (s : ObjSection) : String × ObjSectionKind × Nat × Nat × List Nat :=
  (s.name, s.kind, s.address, s.size, s.data)

def relocTuples (s : ObjSection) : List (Nat × ObjRelocKind × Nat × Int) :=
  s.relocations.map (fun r => (r.address, r.kind, r.target_symbol, r.addend))

def elfHiddenAbsZero : ElfFile :=
  { arch := .PowerPc, endianness := .Big, kind := .Relocatable, sections := [],
    symbols := [{ name := "x", kind := ESymbolKind.Data, address := 0, size := 0,
                  symSection := ESymbolSection.Absolute, isGlobal := true,
                  isLocal := false, isCommon := false, isWeak := false,
                  scope := EScope.Linkage }],
    entry := 0 }

def rtSection (p : Nat) (sec : ObjSection) : ObjSection :=
  { name := sec.name, kind := sec.kind, address := u32 sec.address, size := u32 sec.size,
    data := match sec.kind with | ObjSectionKind.Bss => [] | _ => sec.data,
    align := u32 sec.align, index := p, elf_index := p, relocations := [],
    original_address := 0, file_offset := 0, section_known := true }

def rtSectionR (p : Nat) (sec : ObjSection) : ObjSection :=
  { rtSection p sec with relocations := sec.relocations }

def rtMix : Nat → Nat → List ObjSection → List ObjSection
  | _, _, [] => []
  | 0, p, s :: rest => rtSection p s :: rtMix 0 (p + 1) rest
  | k + 1, p, s :: rest => rtSectionR p s :: rtMix k (p + 1) rest

def someRange (p n : Nat) : List (Option Nat) := (List.range' p n).map some

def rtSymWf (obj : ObjInfo) (os : ObjSymbol) : Prop :=
  os.name ≠ "" ∧ os.address < 4294967296 ∧ os.size < 4294967296
  ∧ os.size_known = true
  ∧ os.flags.global = !os.flags.localFlag
  ∧ os.flags.common = false
  ∧ (os.flags.weak = true → os.flags.localFlag = false)
  ∧ (os.flags.hidden = true → os.flags.localFlag = false)
  ∧ (os.flags.hidden = true → os.sectionIdx = none → os.address ≠ 0)
  ∧ (match os.sectionIdx with
     | some i => i < obj.sections.length
         ∧ (os.kind = ObjSymbolKind.Section →
             match obj.sections.get? i with
             | some sec => os.name = sec.name
             | none => False)
     | none => os.kind ≠ ObjSymbolKind.Section)

def rtRelocWf (obj : ObjInfo) (r : ObjReloc) : Prop :=
  r.address % 4 = 0 ∧ r.address + 2 < 4294967296
  ∧ r.target_symbol < obj.symbols.length
  ∧ -2147483648 ≤ r.addend ∧ r.addend < 2147483648
  ∧ (match obj.symbols.get? r.target_symbol with
     | some ts => ts.kind = ObjSymbolKind.Section → 0 ≤ r.addend
     | none => False)

def rtSecWf (obj : ObjInfo) (sec : ObjSection) : Prop :=
  sec.address < 4294967296 ∧ sec.size < 4294967296
  ∧ (sec.kind = ObjSectionKind.Bss → sec.data = [])
  ∧ ∀ r ∈ sec.relocations, rtRelocWf obj r

/-! ## Generic machinery for reasoning about the Except-valued decoders -/

instance {ε α : Type} [DecidableEq ε] [DecidableEq α] : DecidableEq (Except ε α) := fun a b =>
  match a, b with
  | .error e, .error e' =>
      if h : e = e' then isTrue (by rw [h]) else isFalse (by simp [h])
  | .ok x, .ok y => if h : x = y then isTrue (by rw [h]) else isFalse (by simp [h])
  | .error _, .ok _ => isFalse (by simp)
  | .ok _, .error _ => isFalse (by simp)

theorem bind_ok {ε α β : Type} {x : Except ε α} {f : α → Except ε β} {b : β} :
    (x >>= f) = Except.ok b ↔ ∃ a, x = Except.ok a ∧ f a = Except.ok b := by
  cases x <;> simp [Bind.bind, Except.bind]

theorem ite_err_ok {ε α : Type} {c : Prop} [Decidable c] {e : ε} {x : Except ε α} {b : α}
    (h : (if c then Except.error e else x) = Except.ok b) : ¬c ∧ x = Except.ok b := by
  split at h
  · simp at h
  · exact ⟨by assumption, h⟩

/-! ## Behavior of one section-table entry of Decoder B -/

theorem rsoSectionEntry_zero (idx offset : Nat) (fileData : List Nat)
    (acc : List ObjSection) (tb : Nat) :
    rsoSectionEntry idx offset 0 fileData acc tb = Except.ok (acc, tb) := by
  simp [rsoSectionEntry]

theorem rsoSectionEntry_bss (idx offset size : Nat) (fileData : List Nat)
    (acc : List ObjSection) (tb : Nat) (hs : size ≠ 0) (hoff : alignDown4 offset = 0) :
    rsoSectionEntry idx offset size fileData acc tb =
      Except.ok (acc ++ [rsoSecOf idx offset size [] acc.length], u32 (tb + size)) := by
  unfold rsoSectionEntry rsoSecOf
  rw [if_neg hs]
  simp only [hoff]
  simp [bind, Except.bind, pure, Except.pure]

theorem rsoSectionEntry_data (idx offset size : Nat) (fileData : List Nat)
    (acc : List ObjSection) (tb : Nat) (d : List Nat) (hs : size ≠ 0)
    (hoff : alignDown4 offset ≠ 0)
    (hread : readExact fileData (alignDown4 offset) size = Except.ok d) :
    rsoSectionEntry idx offset size fileData acc tb =
      Except.ok (acc ++ [rsoSecOf idx offset size d acc.length], tb) := by
  unfold rsoSectionEntry rsoSecOf
  rw [if_neg hs]
  simp only [if_neg hoff]
  simp [bind, Except.bind, hread, if_neg hoff]

theorem rsoSectionEntry_inv {idx offset size : Nat} {fileData : List Nat}
    {acc : List ObjSection} {tb : Nat} {st : List ObjSection × Nat}
    (h : rsoSectionEntry idx offset size fileData acc tb = Except.ok st) :
    (size = 0 ∧ st = (acc, tb))
    ∨ (size ≠ 0 ∧ ∃ dat,
        st = (acc ++ [rsoSecOf idx offset size dat acc.length],
              if alignDown4 offset = 0 then u32 (tb + size) else tb)) := by
  by_cases hs : size = 0
  · subst hs
    rw [rsoSectionEntry_zero] at h
    injection h with h
    exact Or.inl ⟨rfl, h.symm⟩
  · by_cases hoff : alignDown4 offset = 0
    · rw [rsoSectionEntry_bss idx offset size fileData acc tb hs hoff] at h
      injection h with h
      exact Or.inr ⟨hs, [], by rw [← h, if_pos hoff]⟩
    · unfold rsoSectionEntry at h
      rw [if_neg hs] at h
      simp only [if_neg hoff] at h
      rw [bind_ok] at h
      obtain ⟨d, hread, h⟩ := h
      try dsimp only at h
      injection h with h
      refine Or.inr ⟨hs, d, ?_⟩
      rw [← h, if_neg hoff]
      simp [rsoSecOf, if_neg hoff]

theorem rsoSectionLoop_bss :
    ∀ (n idx : Nat) (r : RsoReader) (acc : List ObjSection) (tb : Nat)
      (secs : List ObjSection) (tb' : Nat) (r' : RsoReader),
      rsoSectionLoop n idx r acc tb = Except.ok (secs, tb', r') →
      ∃ new, secs = acc ++ new
        ∧ tb' = new.foldl
            (fun a s => if s.kind = ObjSectionKind.Bss then u32 (a + s.size) else a) tb := by
  intro n
  induction n with
  | zero =>
      intro idx r acc tb secs tb' r' h
      unfold rsoSectionLoop at h
      simp only [Except.ok.injEq, Prod.mk.injEq] at h
      obtain ⟨h1, h2, h3⟩ := h
      exact ⟨[], by simp [← h1], by simp [← h2]⟩
  | succ n ih =>
      intro idx r acc tb secs tb' r' h
      unfold rsoSectionLoop at h
      rw [bind_ok] at h; obtain ⟨⟨offset, r1⟩, -, h⟩ := h; try dsimp only at h
      rw [bind_ok] at h; obtain ⟨⟨size, r2⟩, -, h⟩ := h; try dsimp only at h
      rw [bind_ok] at h; obtain ⟨st, hentry, h⟩ := h; try dsimp only at h
      obtain ⟨new', hsecs, htb⟩ := ih (idx + 1) _ st.1 st.2 secs tb' r' h
      rcases rsoSectionEntry_inv hentry with ⟨hs, hst⟩ | ⟨hs, dat, hst⟩
      · subst hst
        exact ⟨new', hsecs, htb⟩
      · subst hst
        dsimp only at hsecs htb
        refine ⟨rsoSecOf idx offset size dat acc.length :: new', by simpa using hsecs, ?_⟩
        rw [htb, List.foldl_cons]
        by_cases hoff : alignDown4 offset = 0
        · simp [rsoSecOf, hoff]
        · by_cases hexec : offset % 2 = 1 <;> simp [rsoSecOf, hoff, hexec]

theorem readRsoHeader_fields (data : List Nat) (hdr : RsoHeader)
    (h : readRsoHeader data = Except.ok hdr) :
    hdr.next = 0 ∧ hdr.prev = 0 ∧ hdr.version = 1 ∧ hdr.bssSection = 0 := by
  unfold readRsoHeader at h
  rw [bind_ok] at h; obtain ⟨⟨next, r⟩, -, h⟩ := h; try dsimp only at h
  obtain ⟨h1, h⟩ := ite_err_ok h
  rw [bind_ok] at h; obtain ⟨⟨prev, r2⟩, -, h⟩ := h; try dsimp only at h
  obtain ⟨h2, h⟩ := ite_err_ok h
  repeat (rw [bind_ok] at h; obtain ⟨⟨_, _⟩, -, h⟩ := h; try dsimp only at h)
  obtain ⟨h3, h⟩ := ite_err_ok h
  repeat (rw [bind_ok] at h; obtain ⟨⟨_, _⟩, -, h⟩ := h; try dsimp only at h)
  obtain ⟨h4, h⟩ := ite_err_ok h
  repeat (rw [bind_ok] at h; obtain ⟨⟨_, _⟩, -, h⟩ := h; try dsimp only at h)
  injection h with h
  subst h
  exact ⟨not_not.mp h1, not_not.mp h2, not_not.mp h3, not_not.mp h4⟩

/-! ## Claims C10, C6, C8, C9 and the Decoder B part of C5 -/

/-- C10: `symbol_hash` applied to the empty string returns 0; `symbol_hash`
equals the canonical ELF symbol-hash algorithm on every input; and
`symbol_hash "main"` equals the independently computed canonical reference
value 0x737FE = 473086. -/
theorem c10_symbol_hash_canonical :
    symbol_hash "" = 0
      ∧ (∀ s : String, symbol_hash s = elfHashRef (strBytes s))
      ∧ symbol_hash "main" = 473086 := by
  refine ⟨rfl, fun s => rfl, by decide⟩

/-- C6 (amended): for every Decoder B section-table entry, bits 0 AND 1 of
the offset field are masked off (`offset & !3`) before the offset is used,
bit 0 being read as the executable flag before masking; entries with
`size == 0` produce no Section; and an entry with masked offset 0 and
nonzero size produces a Bss section whose bytes are not read from the file
(its data is empty).  The claim as frozen says exactly bit 0 is masked;
`c6_counterexample_bit1_masked` refutes that. -/
theorem c6_section_entry :
    ∀ (idx offset size : Nat) (fileData : List Nat) (acc : List ObjSection) (tb : Nat),
      (size = 0 → rsoSectionEntry idx offset size fileData acc tb = Except.ok (acc, tb))
      ∧ (size ≠ 0 → alignDown4 offset = 0 →
          rsoSectionEntry idx offset size fileData acc tb =
            Except.ok (acc ++ [rsoSecOf idx offset size [] acc.length], u32 (tb + size))
          ∧ (rsoSecOf idx offset size [] acc.length).kind = ObjSectionKind.Bss
          ∧ (rsoSecOf idx offset size [] acc.length).data = [])
      ∧ (size ≠ 0 → alignDown4 offset ≠ 0 →
          ∀ d, readExact fileData (alignDown4 offset) size = Except.ok d →
            rsoSectionEntry idx offset size fileData acc tb =
              Except.ok (acc ++ [rsoSecOf idx offset size d acc.length], tb)
            ∧ (rsoSecOf idx offset size d acc.length).file_offset = alignDown4 offset
            ∧ (rsoSecOf idx offset size d acc.length).kind =
                (if offset % 2 = 1 then ObjSectionKind.Code else ObjSectionKind.Data)) := by
  intro idx offset size fileData acc tb
  refine ⟨?_, ?_, ?_⟩
  · intro hs; subst hs; exact rsoSectionEntry_zero idx offset fileData acc tb
  · intro hs hoff
    refine ⟨rsoSectionEntry_bss idx offset size fileData acc tb hs hoff, ?_, rfl⟩
    simp [rsoSecOf, hoff]
  · intro hs hoff d hread
    refine ⟨rsoSectionEntry_data idx offset size fileData acc tb d hs hoff hread, rfl, ?_⟩
    simp [rsoSecOf, if_neg hoff]

theorem c6_section_entry_witness :
    rsoSectionEntry 0 98 4 rsoBufMaskedOffset [] 0 =
        Except.ok ([rsoSecOf 0 98 4 [170, 187, 204, 221] 0], 0)
      ∧ (rsoSecOf 0 98 4 [170, 187, 204, 221] 0).file_offset = 96
      ∧ rsoSectionEntry 7 3 0 [] [] 5 = Except.ok ([], 5)
      ∧ rsoSectionEntry 1 2 6 [] [] 0 = Except.ok ([rsoSecOf 1 2 6 [] 0], 6) := by
  have h3 := (c6_section_entry 0 98 4 rsoBufMaskedOffset [] 0).2.2 (by decide) (by decide)
    [170, 187, 204, 221] (by decide)
  have h1 := (c6_section_entry 7 3 0 [] [] 5).1 rfl
  have h2 := (c6_section_entry 1 2 6 [] [] 0).2.1 (by decide) (by decide)
  exact ⟨h3.1, h3.2.1, h1, h2.1⟩

/-- C6 counterexample: the frozen claim says exactly bit 0 of the offset is
masked off, so an entry with offset 98 (bit 1 set, bit 0 clear) would be
used at offset 98; the code masks `& !3` and uses 96: the produced section
records file offset 96 and the bytes at file offset 96. -/
theorem c6_counterexample_bit1_masked :
    (process_rso rsoBufMaskedOffset).map
        (fun o => o.sections.map (fun s => (s.file_offset, s.data))) =
      Except.ok [(96, [170, 187, 204, 221])]
      ∧ (98 : Nat) % 2 = 0 ∧ (96 : Nat) ≠ 98 := by
  exact ⟨by decide, by decide, by decide⟩

/-- C8 (amended): whenever Decoder B returns an Object, the module header
had both link-list pointers zero and version 1, and the u32-wrapping sum of
the sizes of the implicit zero-filled (Bss) sections equals the header's
declared total bss size.  Contrapositively, every module violating one of
these is rejected with no Object returned.  The claim as frozen demands the
exact (unwrapped) sum; `c8_counterexample_bss_sum_wraps` shows the check
wraps modulo 2^32. -/
theorem c8_rejects_invalid_modules (data : List Nat) (o : ObjInfo)
    (h : process_rso data = Except.ok o) :
    ∃ hdr, readRsoHeader data = Except.ok hdr ∧ hdr.next = 0 ∧ hdr.prev = 0
      ∧ hdr.version = 1 ∧ rsoBssSum o.sections = hdr.bssSize := by
  unfold process_rso at h
  rw [bind_ok] at h; obtain ⟨hdr, hhdr, h⟩ := h; try dsimp only at h
  rw [bind_ok] at h; obtain ⟨slr, hloop, h⟩ := h; try dsimp only at h
  obtain ⟨hbss, h⟩ := ite_err_ok h
  rw [bind_ok] at h; obtain ⟨syms1, -, h⟩ := h; try dsimp only at h
  rw [bind_ok] at h; obtain ⟨syms2, -, h⟩ := h; try dsimp only at h
  rw [bind_ok] at h; obtain ⟨syms3, -, h⟩ := h; try dsimp only at h
  rw [bind_ok] at h; obtain ⟨r1, -, h⟩ := h; try dsimp only at h
  rw [bind_ok] at h; obtain ⟨esr, -, h⟩ := h; try dsimp only at h
  rw [bind_ok] at h; obtain ⟨r2, -, h⟩ := h; try dsimp only at h
  split at h <;>
    (rw [bind_ok] at h; obtain ⟨nm, -, h⟩ := h; try dsimp only at h
     injection h with h
     subst h
     obtain ⟨hn, hp, hv, -⟩ := readRsoHeader_fields data hdr hhdr
     obtain ⟨new, hsecs, htb⟩ := rsoSectionLoop_bss hdr.numSections 0 _ [] 0 slr.1 slr.2.1
       slr.2.2 (by rw [hloop])
     refine ⟨hdr, hhdr, hn, hp, hv, ?_⟩
     dsimp only
     rw [rsoBssSum, hsecs]
     simp only [List.nil_append]
     rw [← htb]
     exact not_not.mp hbss)

theorem c8_rejects_invalid_modules_witness :
    ∃ o, process_rso rsoBufMinimal = Except.ok o
      ∧ ∃ hdr, readRsoHeader rsoBufMinimal = Except.ok hdr ∧ hdr.next = 0 ∧ hdr.prev = 0
          ∧ hdr.version = 1 ∧ rsoBssSum o.sections = hdr.bssSize := by
  have hok : process_rso rsoBufMinimal = Except.ok
      { module_id := 0, kind := .Relocatable, architecture := .PowerPc, name := "",
        symbols := [], sections := [], entry := 0, sda2_base := none, sda_base := none,
        stack_address := none, stack_end := none, db_stack_addr := none, arena_lo := none,
        arena_hi := none, splits := [], link_order := [] } := by decide
  exact ⟨_, hok, c8_rejects_invalid_modules rsoBufMinimal _ hok⟩

/-- C8 counterexample: a module with two implicit sections of size 2^31 and
a declared bss size of 0 is accepted, because `total_bss_size` is a u32 and
the sum wraps to 0; the frozen claim says any module whose (exact) implicit
size sum differs from the declared bss size is rejected. -/
theorem c8_counterexample_bss_sum_wraps :
    (readRsoHeader rsoBufWrapBss).map (fun hd => (hd.next, hd.prev, hd.version, hd.bssSize)) =
        Except.ok (0, 0, 1, 0)
      ∧ (process_rso rsoBufWrapBss).map
          (fun o => o.sections.map (fun s => (s.kind, s.size))) =
        Except.ok [(ObjSectionKind.Bss, 2147483648), (ObjSectionKind.Bss, 2147483648)]
      ∧ (2147483648 + 2147483648 : Nat) ≠ 0 := by
  exact ⟨by decide, by decide, by decide⟩

/-- C5 counterexample: Decoder B (process_rso) returns an Object whose
normalized symbol list contains a symbol with an empty name, when an
export-table entry's name offset points at a NUL byte; the frozen claim
says every symbol of either decoder has a non-empty name. -/
theorem c5_counterexample_rso_empty_name :
    (process_rso rsoBufEmptyName).map (fun o => o.symbols.map (fun s => s.name)) =
      Except.ok [""] := by
  decide

/-- C9: on the ELF input `elfShortImplicit` — a section-kind relocation
with an implicit addend whose address lies within 4 bytes of the end of its
section's data — process_elf terminates abnormally: the slice read
`section_data[address..address + 4]` in to_obj_reloc is out of bounds,
which in Rust is a panic, not a typed error result.  This contradicts the
claim (and spec §7), which promise a typed, non-panicking failure mode on
every input. -/
theorem c9_panic_on_short_implicit_addend :
    process_elf elfShortImplicit = Except.error ElfErr.panicked := by decide

theorem idxP_ok {α : Type} {l : List α} {i : Nat} {a : α} :
    idxP l i = Except.ok a ↔ l.get? i = some a := by
  unfold idxP
  cases hg : l.get? i <;> simp

theorem to_obj_symbol_inv {f : ElfFile} {sym : ElfSymbol} {si : List (Option Nat)}
    {os : ObjSymbol} (h : to_obj_symbol f sym si = Except.ok os) :
    os.name ≠ ""
      ∧ os.address = sym.address ∧ os.size = sym.size ∧ os.size_known = true
      ∧ os.flags = ⟨sym.isGlobal, sym.isLocal, sym.isWeak, sym.isCommon,
                    decide (sym.scope = EScope.Linkage)⟩
      ∧ (sym.kind = ESymbolKind.Text → os.kind = ObjSymbolKind.Function)
      ∧ (sym.kind = ESymbolKind.Data → os.kind = ObjSymbolKind.Object)
      ∧ (sym.kind = ESymbolKind.Unknown → os.kind = ObjSymbolKind.Unknown)
      ∧ (sym.kind = ESymbolKind.Section → os.kind = ObjSymbolKind.Section)
      ∧ (sym.kind = ESymbolKind.Text ∨ sym.kind = ESymbolKind.Data
          ∨ sym.kind = ESymbolKind.Unknown ∨ sym.kind = ESymbolKind.Section)
      ∧ (sym.kind ≠ ESymbolKind.Section → os.name = sym.name)
      ∧ (match symSectionIndex sym with
         | some i => si.get? i = some os.sectionIdx
             ∧ (sym.kind = ESymbolKind.Section →
                 ∃ s, f.sections.get? i = some s ∧ os.name = s.name)
         | none => os.sectionIdx = none) := by
  unfold to_obj_symbol at h
  cases hsec : symSectionIndex sym with
  | none =>
      rw [hsec] at h
      dsimp only at h
      repeat
        first
        | exact Except.noConfusion h
        | split at h
      all_goals first
        | exact Except.noConfusion h
        | (injection h with h; subst h; simp_all)
  | some i =>
      rw [hsec] at h
      dsimp only at h
      cases hg : f.sections.get? i with
      | none => rw [hg] at h; dsimp only at h; exact Except.noConfusion h
      | some s =>
          rw [hg] at h
          dsimp only at h
          repeat
            first
            | exact Except.noConfusion h
            | split at h
          all_goals first
            | exact Except.noConfusion h
            | (injection h with h; subst h; simp_all [idxP_ok])

theorem genSymbols_inv {f : ElfFile} {si : List (Option Nat)} {st : SymPassState}
    {sym : ElfSymbol} {st' : SymPassState}
    (h : genSymbols f si st sym = Except.ok st') :
    (st'.symbols = st.symbols ∧ st'.symbolIndexes = st.symbolIndexes ++ [none])
    ∨ (∃ os, to_obj_symbol f sym si = Except.ok os
        ∧ st'.symbols = st.symbols ++ [os]
        ∧ st'.symbolIndexes = st.symbolIndexes ++ [some st.symbols.length]) := by
  unfold genSymbols at h
  split at h
  · injection h with h; subst h; exact Or.inl ⟨rfl, rfl⟩
  · cases hsec : symSectionIndex sym with
    | none =>
        rw [hsec] at h
        dsimp only at h
        cases hos : to_obj_symbol f sym si <;> rw [hos] at h
        · exact Except.noConfusion h
        · injection h with h; subst h
          exact Or.inr ⟨_, rfl, rfl, rfl⟩
    | some i =>
        rw [hsec] at h
        dsimp only at h
        cases hip : idxP si i with
        | error e => rw [hip] at h; exact Except.noConfusion h
        | ok v =>
            rw [hip] at h
            dsimp only at h
            cases v with
            | none =>
                dsimp only [Option.isNone] at h
                rw [if_pos rfl] at h
                injection h with h; subst h
                exact Or.inl ⟨rfl, rfl⟩
            | some k =>
                dsimp only [Option.isNone] at h
                rw [if_neg (by simp)] at h
                cases hos : to_obj_symbol f sym si <;> rw [hos] at h
                · exact Except.noConfusion h
                · injection h with h; subst h
                  exact Or.inr ⟨_, rfl, rfl, rfl⟩

theorem captureLinker_parts (st : SymPassState) (sym : ElfSymbol) :
    (captureLinker st sym).symbols = st.symbols
      ∧ (captureLinker st sym).symbolIndexes = st.symbolIndexes
      ∧ (captureLinker st sym).sectionStarts = st.sectionStarts
      ∧ (captureLinker st sym).nameToIndex = st.nameToIndex
      ∧ (captureLinker st sym).boundary = st.boundary
      ∧ (captureLinker st sym).objName = st.objName := by
  unfold captureLinker
  split <;> exact ⟨rfl, rfl, rfl, rfl, rfl, rfl⟩

theorem symStep_inv {f : ElfFile} {kind : ObjKind} {si : List (Option Nat)}
    {st : SymPassState} {sym : ElfSymbol} {st' : SymPassState}
    (h : symStep f kind si st sym = Except.ok st') :
    (st'.symbols = st.symbols ∧ st'.symbolIndexes = st.symbolIndexes ++ [none])
    ∨ (∃ os, to_obj_symbol f sym si = Except.ok os
        ∧ st'.symbols = st.symbols ++ [os]
        ∧ st'.symbolIndexes = st.symbolIndexes ++ [some st.symbols.length]) := by
  unfold symStep at h
  obtain ⟨hsy, hsi, hss, hni, hb, hon⟩ := captureLinker_parts st sym
  split at h
  · -- File branch
    split at h
    · injection h with h; subst h; exact Or.inl ⟨by simp [hsy], by simp [hsi]⟩
    · split at h <;>
        (dsimp only at h
         cases hl : alLookup (captureLinker st sym).sectionStarts sym.name <;>
           rw [hl] at h <;> dsimp only at h
         case some =>
           cases hl2 : alLookup (captureLinker st sym).sectionStarts
               (sym.name ++ "_" ++
                 toString (bumpName (captureLinker st sym).nameToIndex sym.name).1) <;>
             rw [hl2] at h <;> dsimp only at h
           case some => exact Except.noConfusion h
           case none =>
             rw [hb] at h
             cases hbd : st.boundary <;> rw [hbd] at h <;> dsimp only at h
             case LookForFile queue =>
               by_cases hq : queue.isEmpty = true
               · simp only [if_pos hq] at h
                 injection h with h; subst h
                 exact Or.inl ⟨by simp [hsy], by simp [hsi]⟩
               · simp only [if_neg hq] at h
                 injection h with h; subst h
                 exact Or.inl ⟨by simp [hsy], by simp [hsi]⟩
             all_goals
               (injection h with h; subst h;
                exact Or.inl ⟨by simp [hsy], by simp [hsi]⟩)
         case none =>
           rw [hb] at h
           cases hbd : st.boundary <;> rw [hbd] at h <;> dsimp only at h
           case LookForFile queue =>
             by_cases hq : queue.isEmpty = true
             · simp only [if_pos hq] at h
               injection h with h; subst h
               exact Or.inl ⟨by simp [hsy], by simp [hsi]⟩
             · simp only [if_neg hq] at h
               injection h with h; subst h
               exact Or.inl ⟨by simp [hsy], by simp [hsi]⟩
           all_goals
             (injection h with h; subst h;
              exact Or.inl ⟨by simp [hsy], by simp [hsi]⟩))
  · -- Section branch
    dsimp only at h
    cases hsec : symSectionIndex sym <;> rw [hsec] at h <;> dsimp only at h
    case none => exact Except.noConfusion h
    case some i =>
      cases hg : f.sections.get? i <;> rw [hg] at h <;> dsimp only at h
      case none => exact Except.noConfusion h
      case some sec =>
        rw [hb] at h
        cases hbd : st.boundary <;> rw [hbd] at h <;> dsimp only at h
        case LookForFile queue =>
          rcases genSymbols_inv h with ⟨h1, h2⟩ | ⟨os, hos, h1, h2⟩
          · exact Or.inl ⟨by simp [h1, hsy], by simp [h2, hsi]⟩
          · exact Or.inr ⟨os, hos, by simp [h1, hsy], by simp [h2, hsi, hsy]⟩
        case FilesEnded =>
          rcases genSymbols_inv h with ⟨h1, h2⟩ | ⟨os, hos, h1, h2⟩
          · exact Or.inl ⟨by simp [h1, hsy], by simp [h2, hsi]⟩
          · exact Or.inr ⟨os, hos, by simp [h1, hsy], by simp [h2, hsi, hsy]⟩
        case LookForSections fn =>
          cases hip : idxP si i <;> rw [hip] at h <;> try dsimp only at h
          case error => exact Except.noConfusion h
          case ok v =>
            cases v <;> try dsimp only at h
            case none =>
              rcases genSymbols_inv h with ⟨h1, h2⟩ | ⟨os, hos, h1, h2⟩
              · exact Or.inl ⟨by simp [h1, hsy], by simp [h2, hsi]⟩
              · exact Or.inr ⟨os, hos, by simp [h1, hsy], by simp [h2, hsi, hsy]⟩
            case some k =>
              cases hal : alLookup (captureLinker st sym).sectionStarts fn <;>
                rw [hal] at h <;> dsimp only at h
              case none => exact Except.noConfusion h
              case some entry =>
                rcases genSymbols_inv h with ⟨h1, h2⟩ | ⟨os, hos, h1, h2⟩
                · exact Or.inl ⟨by simp [h1, hsy], by simp [h2, hsi]⟩
                · exact Or.inr ⟨os, hos, by simp [h1, hsy], by simp [h2, hsi, hsy]⟩
  · -- other kinds
    dsimp only at h
    cases hws : sym.symSection <;> rw [hws] at h <;> dsimp only at h
    case Common => exact Except.noConfusion h
    case OtherSec => exact Except.noConfusion h
    case Undefined =>
      rcases genSymbols_inv h with ⟨h1, h2⟩ | ⟨os, hos, h1, h2⟩
      · exact Or.inl ⟨by simp [h1, hsy], by simp [h2, hsi]⟩
      · exact Or.inr ⟨os, hos, by simp [h1, hsy], by simp [h2, hsi, hsy]⟩
    case Absolute =>
      rcases genSymbols_inv h with ⟨h1, h2⟩ | ⟨os, hos, h1, h2⟩
      · exact Or.inl ⟨by simp [h1, hsy], by simp [h2, hsi]⟩
      · exact Or.inr ⟨os, hos, by simp [h1, hsy], by simp [h2, hsi, hsy]⟩
    case SectionAt i =>
      rw [hb] at h
      cases hbd : st.boundary <;> rw [hbd] at h <;> dsimp only at h
      case LookForFile queue =>
        rcases genSymbols_inv h with ⟨h1, h2⟩ | ⟨os, hos, h1, h2⟩
        · exact Or.inl ⟨by simp [h1, hsy], by simp [h2, hsi]⟩
        · exact Or.inr ⟨os, hos, by simp [h1, hsy], by simp [h2, hsi, hsy]⟩
      case FilesEnded =>
        rcases genSymbols_inv h with ⟨h1, h2⟩ | ⟨os, hos, h1, h2⟩
        · exact Or.inl ⟨by simp [h1, hsy], by simp [h2, hsi]⟩
        · exact Or.inr ⟨os, hos, by simp [h1, hsy], by simp [h2, hsi, hsy]⟩
      case LookForSections fn =>
        cases hip : idxP si i <;> rw [hip] at h <;> try dsimp only at h
        case error => exact Except.noConfusion h
        case ok v =>
          cases v <;> try dsimp only at h
          case none =>
            rcases genSymbols_inv h with ⟨h1, h2⟩ | ⟨os, hos, h1, h2⟩
            · exact Or.inl ⟨by simp [h1, hsy], by simp [h2, hsi]⟩
            · exact Or.inr ⟨os, hos, by simp [h1, hsy], by simp [h2, hsi, hsy]⟩
          case some k =>
            cases hal : alLookup (captureLinker st sym).sectionStarts fn <;>
              rw [hal] at h <;> dsimp only at h
            case none => exact Except.noConfusion h
            case some cur =>
              cases hg : f.sections.get? i <;> rw [hg] at h <;> dsimp only at h
              case none => exact Except.noConfusion h
              case some sec =>
                split at h
                case h_1 e heq => exact Except.noConfusion h
                case h_2 st1 heq =>
                  repeat' split at heq
                  all_goals
                    (injection heq with heq; subst heq
                     rcases genSymbols_inv h with ⟨h1, h2⟩ | ⟨os, hos, h1, h2⟩
                     exacts [Or.inl ⟨by simp [h1, hsy], by simp [h2, hsi]⟩,
                       Or.inr ⟨os, hos, by simp [h1, hsy], by simp [h2, hsi, hsy]⟩])

theorem foldlM_ok_preserve {ε α β : Type} (P : β → Prop) {f : β → α → Except ε β}
    (hf : ∀ b a b', P b → f b a = Except.ok b' → P b') :
    ∀ (l : List α) (b b' : β), P b → l.foldlM f b = Except.ok b' → P b' := by
  intro l
  induction l with
  | nil =>
      intro b b' hb h
      rw [List.foldlM_nil] at h
      injection h with h
      subst h
      exact hb
  | cons a l ih =>
      intro b b' hb h
      rw [List.foldlM_cons, bind_ok] at h
      obtain ⟨b1, h1, h2⟩ := h
      exact ih b1 b' (hf b a b1 hb h1) h2

theorem processSymbols_names {f : ElfFile} {kind : ObjKind} {si : List (Option Nat)}
    {syms : List ElfSymbol} {st st' : SymPassState}
    (h : processSymbols f kind si syms st = Except.ok st')
    (h0 : ∀ os ∈ st.symbols, os.name ≠ "") :
    ∀ os ∈ st'.symbols, os.name ≠ "" := by
  refine foldlM_ok_preserve (fun s => ∀ os ∈ s.symbols, os.name ≠ "") ?_ syms st st' h0 h
  intro b a b' hb hstep
  rcases symStep_inv hstep with ⟨h1, -⟩ | ⟨os, hos, h1, -⟩
  · rw [h1]; exact hb
  · rw [h1]
    intro x hx
    rcases List.mem_append.mp hx with hx | hx
    · exact hb x hx
    · rw [List.mem_singleton.mp hx]
      exact (to_obj_symbol_inv hos).1

theorem process_elf_ok_parts {f : ElfFile} {obj : ObjInfo}
    (h : process_elf f = Except.ok obj) :
    ∃ kind st sections,
      processSymbols f kind (sectionPass f.sections).2 f.symbols initSymState
          = Except.ok st
      ∧ relocPass f (sectionPass f.sections).2 st.symbolIndexes
          (sectionPass f.sections).1 = Except.ok sections
      ∧ obj.symbols = st.symbols ∧ obj.sections = sections := by
  unfold process_elf at h
  cases harch : f.arch <;> rw [harch] at h <;> try dsimp only at h
  case OtherArch => exact Except.noConfusion h
  case PowerPc =>
    obtain ⟨hend, h⟩ := ite_err_ok h
    cases hkind : f.kind <;> rw [hkind] at h <;> dsimp only at h
    case OtherKind => exact Except.noConfusion h
    all_goals (
      cases hps : processSymbols f _ (sectionPass f.sections).2 f.symbols initSymState <;>
        rw [hps] at h <;> try dsimp only at h
      case error => exact Except.noConfusion h
      case ok st =>
        cases hrp : relocPass f (sectionPass f.sections).2 st.symbolIndexes
            (sectionPass f.sections).1 <;> rw [hrp] at h <;> try dsimp only at h
        case error => exact Except.noConfusion h
        case ok sections =>
          injection h with h
          subst h
          exact ⟨_, st, sections, hps, hrp, rfl, rfl⟩)

/-- C5 (amended): every Symbol in the normalized symbol list of every Object
produced by a successful Decoder A (process_elf) decode has a non-empty
name.  (Decoder B can produce empty-named export symbols; see the
counterexample.) -/
theorem c5_elf_symbol_names_nonempty {f : ElfFile} {obj : ObjInfo}
    (h : process_elf f = Except.ok obj) :
    ∀ os ∈ obj.symbols, os.name ≠ "" := by
  obtain ⟨kind, st, sections, hps, hrp, hsy, hse⟩ := process_elf_ok_parts h
  rw [hsy]
  refine processSymbols_names hps ?_
  intro os hos
  simp [initSymState] at hos

theorem alignDown4_of_aligned {x : Nat} (h : x % 4 = 0) : alignDown4 x = x := by
  unfold alignDown4
  exact Nat.mul_div_cancel' (Nat.dvd_of_mod_eq_zero h)

theorem to_obj_reloc_address {f : ElfFile} {syi : List (Option Nat)} {sd : List Nat}
    {addr : Nat} {rel : EReloc} {r : ObjReloc}
    (h : to_obj_reloc f syi sd addr rel = Except.ok r) : r.address % 4 = 0 := by
  unfold to_obj_reloc at h
  repeat'
    first
    | exact Except.noConfusion h
    | split at h
    | dsimp only at h
  all_goals first
    | exact Except.noConfusion h
    | (injection h with h; subst h; exact alignDown4_mod addr)

theorem relocFold_aligned {f : ElfFile} {syi : List (Option Nat)} {dat : List Nat}
    {rl : List (Nat × EReloc)} {acc rels : List ObjReloc}
    (h : rl.foldlM (relocStep f syi dat) acc = Except.ok rels)
    (h0 : ∀ r ∈ acc, r.address % 4 = 0) :
    ∀ r ∈ rels, r.address % 4 = 0 := by
  refine foldlM_ok_preserve (fun l => ∀ r ∈ l, r.address % 4 = 0) ?_ rl acc rels h0 h
  intro b a b' hb hstep
  unfold relocStep at hstep
  cases hto : to_obj_reloc f syi dat a.1 a.2 <;> rw [hto] at hstep <;>
    try dsimp only at hstep
  case error => exact Except.noConfusion hstep
  case ok r =>
    injection hstep with hstep
    subst hstep
    intro x hx
    rcases List.mem_append.mp hx with hx | hx
    · exact hb x hx
    · rw [List.mem_singleton.mp hx]
      exact to_obj_reloc_address hto

theorem relocPass_aligned {f : ElfFile} {si syi : List (Option Nat)}
    {secs0 secs' : List ObjSection}
    (h : relocPass f si syi secs0 = Except.ok secs')
    (h0 : ∀ s ∈ secs0, ∀ r ∈ s.relocations, r.address % 4 = 0) :
    ∀ s ∈ secs', ∀ r ∈ s.relocations, r.address % 4 = 0 := by
  refine foldlM_ok_preserve (fun l => ∀ s ∈ l, ∀ r ∈ s.relocations, r.address % 4 = 0)
    ?_ (List.range f.sections.length) secs0 secs' h0 h
  intro b j b' hb hstep
  unfold relocSecStep at hstep
  cases hg : f.sections.get? j <;> rw [hg] at hstep <;> try dsimp only at hstep
  case none => exact Except.noConfusion hstep
  case some esec =>
    cases hip : idxP si j <;> rw [hip] at hstep <;> try dsimp only at hstep
    case error => exact Except.noConfusion hstep
    case ok v =>
      cases v <;> try dsimp only at hstep
      case none =>
        injection hstep with hstep
        subst hstep
        exact hb
      case some i =>
        cases hoi : b.get? i <;> rw [hoi] at hstep <;> try dsimp only at hstep
        case none =>
          injection hstep with hstep
          subst hstep
          exact hb
        case some osec =>
          cases hin : esec.relocs.foldlM (relocStep f syi osec.data) osec.relocations <;>
            rw [hin] at hstep <;> try dsimp only at hstep
          case error => exact Except.noConfusion hstep
          case ok rels =>
            injection hstep with hstep
            subst hstep
            intro s hs
            rcases List.mem_or_eq_of_mem_set hs with hs | hs
            · exact hb s hs
            · subst hs
              intro r hr
              dsimp only at hr
              exact relocFold_aligned hin (hb osec (List.get?_mem hoi)) r hr

theorem sectionPass_no_relocs (secs : List ElfSection) :
    ∀ s ∈ (sectionPass secs).1, s.relocations = [] := by
  suffices hgen : ∀ (l : List ElfSection) (acc : List ObjSection × List (Option Nat)),
      (∀ s ∈ acc.1, s.relocations = []) →
      ∀ s ∈ (l.foldl sectionStep acc).1, s.relocations = [] by
    refine hgen secs ([], []) ?_
    intro s hs
    simp at hs
  intro l
  induction l with
  | nil => intro acc hacc; simpa using hacc
  | cons sec l ih =>
      intro acc hacc
      rw [List.foldl_cons]
      refine ih (sectionStep acc sec) ?_
      intro s hs
      unfold sectionStep at hs
      cases hk : sectionKindMap sec.kind <;> rw [hk] at hs <;> dsimp only at hs
      · exact hacc s hs
      · rcases List.mem_append.mp hs with hs | hs
        · exact hacc s hs
        · rw [List.mem_singleton.mp hs]

/-- C4: in every Object produced by a successful decode (process_elf), every
stored Relocation address satisfies address % 4 = 0: to_obj_reloc always
stores the address rounded down to the enclosing 4-byte word. -/
theorem c4_reloc_addresses_aligned {f : ElfFile} {obj : ObjInfo}
    (h : process_elf f = Except.ok obj) :
    ∀ s ∈ obj.sections, ∀ r ∈ s.relocations, r.address % 4 = 0 := by
  obtain ⟨kind, st, sections, hps, hrp, hsy, hse⟩ := process_elf_ok_parts h
  rw [hse]
  refine relocPass_aligned hrp ?_
  intro s hs r hr
  rw [sectionPass_no_relocs f.sections s hs] at hr
  exact absurd hr (List.not_mem_nil r)

/-- C3: for a relocation whose target symbol is of section kind, an implicit
addend is read as the 4-byte big-endian word at the relocation address of the
owning section's data and is only legal for the normalized kind Absolute
(UnsupportedImplicitRelocation otherwise); a negative resulting addend fails
with NegativeSectionAddend; Text/Data/Unknown targets use the explicit addend
unchanged. -/
theorem c3_section_addend (f : ElfFile) (syi : List (Option Nat)) (sd : List Nat)
    (addr symIdx t : Nat) (rel : EReloc) (sym : ElfSymbol) (k : ObjRelocKind)
    (hk : normalizeRelocKind rel.kind = some k)
    (ht : rel.target = ERelocTarget.Symbol symIdx)
    (hs : f.symbols.get? symIdx = some sym)
    (hi : idxP syi symIdx = Except.ok (some t)) :
    (sym.kind = ESymbolKind.Section → rel.implicitAddend = true →
      ∀ a b c d rest, sd.drop addr = a :: b :: c :: d :: rest →
        (k = ObjRelocKind.Absolute →
          to_obj_reloc f syi sd addr rel =
            Except.ok { kind := k, address := alignDown4 addr,
                        target_symbol := t, addend := (be32 a b c d : Int) })
        ∧ (k ≠ ObjRelocKind.Absolute →
          to_obj_reloc f syi sd addr rel =
            Except.error ElfErr.unsupportedImplicitRelocation))
    ∧ (sym.kind = ESymbolKind.Section → rel.implicitAddend = false →
        (rel.addend < 0 →
          to_obj_reloc f syi sd addr rel =
            Except.error ElfErr.negativeSectionAddend)
        ∧ (0 ≤ rel.addend →
          to_obj_reloc f syi sd addr rel =
            Except.ok { kind := k, address := alignDown4 addr,
                        target_symbol := t, addend := rel.addend }))
    ∧ ((sym.kind = ESymbolKind.Text ∨ sym.kind = ESymbolKind.Data
          ∨ sym.kind = ESymbolKind.Unknown) →
        to_obj_reloc f syi sd addr rel =
          Except.ok { kind := k, address := alignDown4 addr,
                      target_symbol := t, addend := rel.addend }) := by
  refine ⟨?_, ?_, ?_⟩
  · intro hsec himpl a b c d rest hd
    constructor
    · intro hka
      subst hka
      unfold to_obj_reloc
      simp only [hk, ht, hs, hi, hsec, himpl, hd, if_true]
      rw [if_neg (not_lt.mpr (Int.natCast_nonneg _))]
    · intro hkne
      unfold to_obj_reloc
      simp only [hk, ht, hs, hi, hsec, himpl, hd]
      cases k
      case Absolute => exact absurd rfl hkne
      all_goals rfl
  · intro hsec himpl
    constructor
    · intro hneg
      unfold to_obj_reloc
      simp only [hk, ht, hs, hi, hsec, himpl, Bool.false_eq_true, if_false]
      rw [if_pos hneg]
    · intro hnn
      unfold to_obj_reloc
      simp only [hk, ht, hs, hi, hsec, himpl, Bool.false_eq_true, if_false]
      rw [if_neg (not_lt.mpr hnn)]
  · intro hkind
    unfold to_obj_reloc
    rcases hkind with hkind | hkind | hkind <;> simp only [hk, ht, hs, hi, hkind]

/-- C7: write_elf emits PpcAddr16Hi/Ha/Lo and PpcEmbSda21 relocations at the
address rounded down to 4 bytes plus 2 (so a 4-byte-aligned PpcAddr16Lo at A
goes to offset A + 2 with type R_PPC_ADDR16_LO), PpcRel24/PpcRel14 at the
rounded-down address, and Absolute at its unchanged offset with type
R_PPC_ADDR32 when 4-byte aligned and R_PPC_UADDR32 otherwise. -/
theorem c7_reloc_emission (r : ObjReloc) :
    (r.kind = ObjRelocKind.PpcAddr16Lo → r.address % 4 = 0 →
        relocTypeAndOffset r = (r.address + 2, R_PPC_ADDR16_LO))
    ∧ (r.kind = ObjRelocKind.PpcAddr16Hi →
        relocTypeAndOffset r = (alignDown4 r.address + 2, R_PPC_ADDR16_HI))
    ∧ (r.kind = ObjRelocKind.PpcAddr16Ha →
        relocTypeAndOffset r = (alignDown4 r.address + 2, R_PPC_ADDR16_HA))
    ∧ (r.kind = ObjRelocKind.PpcAddr16Lo →
        relocTypeAndOffset r = (alignDown4 r.address + 2, R_PPC_ADDR16_LO))
    ∧ (r.kind = ObjRelocKind.PpcEmbSda21 →
        relocTypeAndOffset r = (alignDown4 r.address + 2, R_PPC_EMB_SDA21))
    ∧ (r.kind = ObjRelocKind.PpcRel24 →
        relocTypeAndOffset r = (alignDown4 r.address, R_PPC_REL24))
    ∧ (r.kind = ObjRelocKind.PpcRel14 →
        relocTypeAndOffset r = (alignDown4 r.address, R_PPC_REL14))
    ∧ (r.kind = ObjRelocKind.Absolute →
        relocTypeAndOffset r = (r.address,
          if r.address % 4 = 0 then R_PPC_ADDR32 else R_PPC_UADDR32)) := by
  refine ⟨?_, ?_, ?_, ?_, ?_, ?_, ?_, ?_⟩
  · intro hk hal
    simp only [relocTypeAndOffset, hk, alignDown4_of_aligned hal]
  · intro hk
    simp only [relocTypeAndOffset, hk]
  · intro hk
    simp only [relocTypeAndOffset, hk]
  · intro hk
    simp only [relocTypeAndOffset, hk]
  · intro hk
    simp only [relocTypeAndOffset, hk]
  · intro hk
    simp only [relocTypeAndOffset, hk]
  · intro hk
    simp only [relocTypeAndOffset, hk]
  · intro hk
    simp only [relocTypeAndOffset, hk]

theorem captureLinker_secSym (st : SymPassState) (a i : Nat) :
    captureLinker st (secSym a i) = st := rfl

theorem alLookup_nil {α : Type} (k : String) :
    alLookup ([] : List (String × α)) k = none := rfl

theorem alLookup_cons_self {α : Type} (k : String) (v : α) (rest : List (String × α)) :
    alLookup ((k, v) :: rest) k = some v := by
  simp [alLookup]

theorem alAdjust_single_self {α : Type} (k : String) (v : α) (g : α → α) :
    alAdjust [(k, v)] k g = [(k, g v)] := by
  simp [alAdjust]

theorem genSymbols_frame {f : ElfFile} {si : List (Option Nat)} {st : SymPassState}
    {sym : ElfSymbol} {st' : SymPassState}
    (h : genSymbols f si st sym = Except.ok st') :
    st'.sectionStarts = st.sectionStarts ∧ st'.boundary = st.boundary
    ∧ st'.nameToIndex = st.nameToIndex ∧ st'.objName = st.objName := by
  unfold genSymbols at h
  repeat'
    first
    | exact Except.noConfusion h
    | split at h
    | dsimp only at h
  all_goals first
    | exact Except.noConfusion h
    | (injection h with h; subst h; exact ⟨rfl, rfl, rfl, rfl⟩)

theorem symStep_section_look {f : ElfFile} {kind : ObjKind} {si : List (Option Nat)}
    {st st' : SymPassState} {fn : String} {cur : List (Nat × String)} {a i : Nat}
    (hbd : st.boundary = BoundaryState.LookForSections fn)
    (hss : st.sectionStarts = [(fn, cur)])
    (hk : ∃ k, idxP si i = Except.ok (some k))
    (hg : (f.sections.get? i).isSome = true)
    (h : symStep f kind si st (secSym a i) = Except.ok st') :
    st'.sectionStarts = [(fn, cur ++ [(a, secNameOf f i)])]
    ∧ st'.boundary = BoundaryState.LookForSections fn
    ∧ st'.nameToIndex = st.nameToIndex := by
  obtain ⟨sec, hgs⟩ := Option.isSome_iff_exists.mp hg
  obtain ⟨k, hik⟩ := hk
  unfold symStep at h
  rw [captureLinker_secSym] at h
  dsimp only [secSym, symSectionIndex] at h
  rw [hgs] at h
  dsimp only at h
  rw [hbd] at h
  dsimp only at h
  rw [hik] at h
  dsimp only at h
  rw [if_pos (show (some k).isSome = true from rfl)] at h
  rw [hss, alLookup_cons_self] at h
  dsimp only at h
  obtain ⟨hfs, hfb, hfn, -⟩ := genSymbols_frame h
  dsimp only at hfs hfb hfn
  rw [alAdjust_single_self] at hfs
  unfold secNameOf
  rw [hgs]
  dsimp only
  exact ⟨hfs, hfb, hfn⟩

theorem symStep_section_queue {f : ElfFile} {kind : ObjKind} {si : List (Option Nat)}
    {st st' : SymPassState} {q : List (Nat × String)} {a i : Nat}
    (hbd : st.boundary = BoundaryState.LookForFile q)
    (hg : (f.sections.get? i).isSome = true)
    (h : symStep f kind si st (secSym a i) = Except.ok st') :
    st'.sectionStarts = st.sectionStarts
    ∧ st'.boundary = BoundaryState.LookForFile (q ++ [(a, secNameOf f i)])
    ∧ st'.nameToIndex = st.nameToIndex := by
  obtain ⟨sec, hgs⟩ := Option.isSome_iff_exists.mp hg
  unfold symStep at h
  rw [captureLinker_secSym] at h
  dsimp only [secSym, symSectionIndex] at h
  rw [hgs] at h
  dsimp only at h
  rw [hbd] at h
  dsimp only at h
  obtain ⟨hfs, hfb, hfn, -⟩ := genSymbols_frame h
  dsimp only at hfs hfb hfn
  unfold secNameOf
  rw [hgs]
  dsimp only
  exact ⟨hfs, hfb, hfn⟩

theorem alLookup_cons {α : Type} (k' : String) (v : α) (rest : List (String × α))
    (k : String) :
    alLookup ((k', v) :: rest) k = if k' = k then some v else alLookup rest k := by
  by_cases hk : k' = k
  · simp [alLookup, List.find?_cons, hk]
  · simp [alLookup, List.find?_cons, hk]

theorem alAdjust_append_fresh {α : Type} :
    ∀ (m : List (String × α)) (k : String) (v : α) (g : α → α),
      alLookup m k = none → alAdjust (m ++ [(k, v)]) k g = m ++ [(k, g v)] := by
  intro m
  induction m with
  | nil =>
      intro k v g _
      simp [alAdjust]
  | cons p rest ih =>
      intro k v g hnone
      obtain ⟨k', w⟩ := p
      rw [alLookup_cons] at hnone
      by_cases hk : k' = k
      · rw [if_pos hk] at hnone
        exact Option.noConfusion hnone
      · rw [if_neg hk] at hnone
        simp only [List.cons_append, alAdjust, if_neg hk, List.append_eq]
        rw [ih k v g hnone]

theorem fileSym_kind (fn : String) : (fileSym fn).kind = ESymbolKind.File := rfl

theorem fileSym_name (fn : String) : (fileSym fn).name = fn := rfl

theorem ite_update_objName_parts (c : Prop) [Decidable c] (s : SymPassState) (n : String) :
    (if c then { s with objName := n } else s).sectionStarts = s.sectionStarts
    ∧ (if c then { s with objName := n } else s).nameToIndex = s.nameToIndex
    ∧ (if c then { s with objName := n } else s).boundary = s.boundary := by
  split <;> exact ⟨rfl, rfl, rfl⟩

theorem symStep_file {f : ElfFile} {kind : ObjKind} {si : List (Option Nat)}
    {st st' : SymPassState} {fn : String} {q : List (Nat × String)}
    (hpch : isPchName fn = false)
    (hal : alLookup st.sectionStarts fn = none)
    (hbd : st.boundary = BoundaryState.LookForFile q)
    (h : symStep f kind si st (fileSym fn) = Except.ok st') :
    st'.sectionStarts = st.sectionStarts ++ [(fn, q)]
    ∧ (q = [] → st'.boundary = BoundaryState.LookForSections fn)
    ∧ (q ≠ [] → st'.boundary = BoundaryState.LookForFile [])
    ∧ st'.nameToIndex = st.nameToIndex := by
  obtain ⟨hsy, hsi, hss, hni, hb, hon⟩ := captureLinker_parts st (fileSym fn)
  obtain ⟨hiss, hini, hib⟩ := ite_update_objName_parts (kind = ObjKind.Relocatable)
      (captureLinker st (fileSym fn)) fn
  unfold symStep at h
  simp only [fileSym_kind, fileSym_name] at h
  rw [hpch] at h
  simp only [Bool.false_eq_true, if_false] at h
  rw [hiss, hini, hib] at h
  rw [hss, hni, hb, hbd, hal] at h
  dsimp only at h
  by_cases hq : q = []
  · subst hq
    rw [if_pos (show List.isEmpty ([] : List (Nat × String)) = true from rfl)] at h
    injection h with h
    subst h
    exact ⟨rfl, fun _ => rfl, fun hq => absurd rfl hq, rfl⟩
  · rw [if_neg (by simp [List.isEmpty_iff, hq])] at h
    injection h with h
    subst h
    refine ⟨?_, fun he => absurd he hq, fun _ => rfl, rfl⟩
    dsimp only
    rw [alAdjust_append_fresh st.sectionStarts fn [] _ hal]
    simp

theorem symStep_file_dup {f : ElfFile} {kind : ObjKind} {si : List (Option Nat)}
    {st st' : SymPassState} {fn fn0 : String} {cur : List (Nat × String)}
    (hpch : isPchName fn = false)
    (hal : alLookup st.sectionStarts fn = some cur)
    (hn : st.nameToIndex = [])
    (hal2 : alLookup st.sectionStarts (fn ++ "_1") = none)
    (hbd : st.boundary = BoundaryState.LookForSections fn0)
    (h : symStep f kind si st (fileSym fn) = Except.ok st') :
    st'.sectionStarts = st.sectionStarts ++ [(fn ++ "_1", [])]
    ∧ st'.boundary = BoundaryState.LookForSections (fn ++ "_1") := by
  obtain ⟨hsy, hsi, hss, hni, hb, hon⟩ := captureLinker_parts st (fileSym fn)
  obtain ⟨hiss, hini, hib⟩ := ite_update_objName_parts (kind = ObjKind.Relocatable)
      (captureLinker st (fileSym fn)) fn
  have h12 : ("_" : String) ++ "1" = "_1" := by decide
  have hcat : fn ++ "_" ++ "1" = fn ++ "_1" := by rw [String.append_assoc, h12]
  unfold symStep at h
  simp only [fileSym_kind, fileSym_name] at h
  rw [hpch] at h
  simp only [Bool.false_eq_true, if_false] at h
  rw [hiss, hini, hib] at h
  rw [hss, hni, hb, hbd, hn, hal] at h
  dsimp only at h
  rw [show bumpName ([] : List (String × Nat)) fn = (1, [(fn, 1)]) from rfl] at h
  dsimp only at h
  rw [show toString (1 : Nat) = "1" from rfl] at h
  rw [hcat] at h
  rw [hal2] at h
  dsimp only at h
  injection h with h
  subst h
  exact ⟨rfl, rfl⟩

theorem stream_look : ∀ (ps : List (Nat × Nat)) {f : ElfFile} {kind : ObjKind}
    {si : List (Option Nat)} {fn : String} {cur : List (Nat × String)}
    {st st' : SymPassState},
    st.boundary = BoundaryState.LookForSections fn →
    st.sectionStarts = [(fn, cur)] →
    (∀ p ∈ ps, ∃ k, idxP si p.2 = Except.ok (some k)) →
    (∀ p ∈ ps, (f.sections.get? p.2).isSome = true) →
    processSymbols f kind si (ps.map (fun p => secSym p.1 p.2)) st = Except.ok st' →
    st'.sectionStarts = [(fn, cur ++ ps.map (fun p => (p.1, secNameOf f p.2)))] := by
  intro ps
  induction ps with
  | nil =>
      intro f kind si fn cur st st' hbd hss _ _ h
      unfold processSymbols at h
      rw [List.map_nil, List.foldlM_nil] at h
      injection h with h
      subst h
      simpa using hss
  | cons p ps ih =>
      intro f kind si fn cur st st' hbd hss hk hg h
      unfold processSymbols at h
      rw [List.map_cons, List.foldlM_cons, bind_ok] at h
      obtain ⟨st1, h1, h2⟩ := h
      obtain ⟨h1s, h1b, -⟩ :=
        symStep_section_look hbd hss (hk p (by simp)) (hg p (by simp)) h1
      have hres := ih h1b h1s (fun r hr => hk r (by simp [hr]))
        (fun r hr => hg r (by simp [hr])) h2
      rw [hres]
      simp

theorem stream_queue : ∀ (ps : List (Nat × Nat)) {f : ElfFile} {kind : ObjKind}
    {si : List (Option Nat)} {q : List (Nat × String)} {st st' : SymPassState},
    st.boundary = BoundaryState.LookForFile q →
    (∀ p ∈ ps, (f.sections.get? p.2).isSome = true) →
    processSymbols f kind si (ps.map (fun p => secSym p.1 p.2)) st = Except.ok st' →
    st'.sectionStarts = st.sectionStarts
    ∧ st'.boundary = BoundaryState.LookForFile
        (q ++ ps.map (fun p => (p.1, secNameOf f p.2)))
    ∧ st'.nameToIndex = st.nameToIndex := by
  intro ps
  induction ps with
  | nil =>
      intro f kind si q st st' hbd _ h
      unfold processSymbols at h
      rw [List.map_nil, List.foldlM_nil] at h
      injection h with h
      subst h
      exact ⟨rfl, by rw [hbd]; simp, rfl⟩
  | cons p ps ih =>
      intro f kind si q st st' hbd hg h
      unfold processSymbols at h
      rw [List.map_cons, List.foldlM_cons, bind_ok] at h
      obtain ⟨st1, h1, h2⟩ := h
      obtain ⟨h1s, h1b, h1n⟩ := symStep_section_queue hbd (hg p (by simp)) h1
      obtain ⟨h2s, h2b, h2n⟩ := ih h1b (fun r hr => hg r (by simp [hr])) h2
      refine ⟨by rw [h2s, h1s], ?_, by rw [h2n, h1n]⟩
      rw [h2b]
      simp

/-- C2: boundary recovery.  From the initial state: (1) a file symbol
followed by section symbols yields the split list for that file holding
exactly those sections at the given addresses; (2) the reverse order
(sections first, then the file symbol) yields the identical split list;
(3) two file symbols with the same name register the second under the name
with suffix \"_1\", and link_order lists both names. -/
theorem c2_boundary_recovery (f : ElfFile) (kind : ObjKind) (si : List (Option Nat))
    (fn : String) (ps : List (Nat × Nat))
    (hpch : isPchName fn = false)
    (hidx : ∀ p ∈ ps, ∃ k, idxP si p.2 = Except.ok (some k))
    (hsec : ∀ p ∈ ps, (f.sections.get? p.2).isSome = true) :
    (∀ st', processSymbols f kind si
        (fileSym fn :: ps.map (fun p => secSym p.1 p.2)) initSymState = Except.ok st' →
      st'.sectionStarts = [(fn, ps.map (fun p => (p.1, secNameOf f p.2)))])
    ∧ (∀ st', processSymbols f kind si
        (ps.map (fun p => secSym p.1 p.2) ++ [fileSym fn]) initSymState
          = Except.ok st' →
      st'.sectionStarts = [(fn, ps.map (fun p => (p.1, secNameOf f p.2)))])
    ∧ (∀ st', processSymbols f kind si [fileSym fn, fileSym fn] initSymState
          = Except.ok st' →
      st'.sectionStarts = [(fn, []), (fn ++ "_1", [])]
      ∧ linkOrderOf st'.sectionStarts = [fn, fn ++ "_1"]) := by
  have hne : ¬ fn = fn ++ "_1" := by
    intro heq
    have hlen := congrArg String.length heq
    rw [String.length_append] at hlen
    rw [show ("_1" : String).length = 2 from rfl] at hlen
    omega
  refine ⟨?_, ?_, ?_⟩
  · intro st' h
    unfold processSymbols at h
    rw [List.foldlM_cons, bind_ok] at h
    obtain ⟨st1, h1, h2⟩ := h
    obtain ⟨h1s, h1b, -, -⟩ := symStep_file hpch
      (show alLookup initSymState.sectionStarts fn = none from rfl)
      (show initSymState.boundary = BoundaryState.LookForFile [] from rfl) h1
    have h1s2 : st1.sectionStarts = [(fn, [])] := by
      rw [h1s]
      simp [initSymState]
    have hres := stream_look ps (h1b rfl) h1s2 hidx hsec h2
    simpa using hres
  · intro st' h
    unfold processSymbols at h
    rw [List.foldlM_append, bind_ok] at h
    obtain ⟨st1, h1, h2⟩ := h
    obtain ⟨h1s, h1b, h1n⟩ := stream_queue ps
      (show initSymState.boundary = BoundaryState.LookForFile [] from rfl) hsec h1
    simp only [List.foldlM_cons, List.foldlM_nil] at h2
    rw [bind_ok] at h2
    obtain ⟨st2, h2f, h2p⟩ := h2
    have h1b2 : st1.boundary
        = BoundaryState.LookForFile (ps.map (fun p => (p.1, secNameOf f p.2))) := by
      rw [h1b]
      simp
    have h1al : alLookup st1.sectionStarts fn = none := by
      rw [h1s]
      rfl
    obtain ⟨hfs, hbe, hbne, -⟩ := symStep_file hpch h1al h1b2 h2f
    have hst : st2 = st' := by
      simpa [pure, Except.pure] using h2p
    subst hst
    rw [hfs, h1s]
    simp [initSymState]
  · intro st' h
    unfold processSymbols at h
    simp only [List.foldlM_cons, List.foldlM_nil] at h
    rw [bind_ok] at h
    obtain ⟨st1, h1, h2⟩ := h
    rw [bind_ok] at h2
    obtain ⟨st2, h2f, h2p⟩ := h2
    obtain ⟨h1s, h1b, -, h1n⟩ := symStep_file hpch
      (show alLookup initSymState.sectionStarts fn = none from rfl)
      (show initSymState.boundary = BoundaryState.LookForFile [] from rfl) h1
    have h1s2 : st1.sectionStarts = [(fn, [])] := by
      rw [h1s]
      simp [initSymState]
    have h1n2 : st1.nameToIndex = [] := by
      rw [h1n]
      rfl
    have hal : alLookup st1.sectionStarts fn = some [] := by
      rw [h1s2]
      exact alLookup_cons_self fn [] []
    have hal2 : alLookup st1.sectionStarts (fn ++ "_1") = none := by
      rw [h1s2, alLookup_cons, if_neg hne]
      rfl
    obtain ⟨h2s, h2b⟩ := symStep_file_dup hpch hal h1n2 hal2 (h1b rfl) h2f
    have hst : st2 = st' := by
      simpa [pure, Except.pure] using h2p
    subst hst
    constructor
    · rw [h2s, h1s2]
      rfl
    · rw [linkOrderOf, h2s, h1s2]
      simp

/-- Witness for c2_boundary_recovery: a concrete one-file one-section stream
over elfExampleInput reaches exactly the predicted split list. -/
theorem c2_boundary_recovery_witness :
    processSymbols elfExampleInput ObjKind.Relocatable [some 0]
        (fileSym "file.c" :: [(5, 0)].map (fun p => secSym p.1 p.2)) initSymState
      = Except.ok c2WitnessState
    ∧ c2WitnessState.sectionStarts = [("file.c", [(5, ".text")])] := by
  have hok : processSymbols elfExampleInput ObjKind.Relocatable [some 0]
      (fileSym "file.c" :: [(5, 0)].map (fun p => secSym p.1 p.2)) initSymState
      = Except.ok c2WitnessState := by decide
  refine ⟨hok, ?_⟩
  have hmain := (c2_boundary_recovery elfExampleInput ObjKind.Relocatable [some 0]
    "file.c" [(5, 0)] (by decide)
    (by intro p hp; rw [List.mem_singleton] at hp; subst hp; exact ⟨0, by decide⟩)
    (by intro p hp; rw [List.mem_singleton] at hp; subst hp; decide)).1
    c2WitnessState hok
  simpa using hmain

/-- Witness for c3_section_addend: a concrete implicit-addend Absolute
relocation against the section symbol of elfShortImplicit reads its addend
from the section bytes. -/
theorem c3_section_addend_witness :
    to_obj_reloc elfShortImplicit [some 0] [9, 9, 9, 9] 0
        { kind := ERelocKind.Absolute, target := ERelocTarget.Symbol 0, addend := 0,
          implicitAddend := true }
      = Except.ok { kind := ObjRelocKind.Absolute, address := 0, target_symbol := 0,
                    addend := (151587081 : Int) } := by
  have h := c3_section_addend elfShortImplicit [some 0] [9, 9, 9, 9] 0 0 0
      { kind := ERelocKind.Absolute, target := ERelocTarget.Symbol 0, addend := 0,
        implicitAddend := true }
      { name := "", kind := ESymbolKind.Section, address := 0, size := 0,
        symSection := ESymbolSection.SectionAt 0, isGlobal := false, isLocal := true,
        isCommon := false, isWeak := false, scope := EScope.Compilation }
      ObjRelocKind.Absolute (by decide) (by decide) (by decide) (by decide)
  exact (h.1 (by decide) (by decide) 9 9 9 9 [] (by decide)).1 rfl

/-- Witness for c4_reloc_addresses_aligned: the decode of elfExampleInput
succeeds and its single relocation sits at a 4-byte-aligned address. -/
theorem c4_reloc_addresses_aligned_witness :
    process_elf elfExampleInput = Except.ok elfExampleObj
    ∧ ∀ s ∈ elfExampleObj.sections, ∀ r ∈ s.relocations, r.address % 4 = 0 := by
  have hok : process_elf elfExampleInput = Except.ok elfExampleObj := by decide
  exact ⟨hok, c4_reloc_addresses_aligned hok⟩

/-- Witness for c5_elf_symbol_names_nonempty: the decode of elfExampleInput
succeeds and all its symbols carry non-empty names. -/
theorem c5_elf_symbol_names_nonempty_witness :
    process_elf elfExampleInput = Except.ok elfExampleObj
    ∧ ∀ os ∈ elfExampleObj.symbols, os.name ≠ "" := by
  have hok : process_elf elfExampleInput = Except.ok elfExampleObj := by decide
  exact ⟨hok, c5_elf_symbol_names_nonempty hok⟩

/-- Witness for c7_reloc_emission: a PpcAddr16Lo relocation at the aligned
address 8 is emitted at offset 10 with type R_PPC_ADDR16_LO. -/
theorem c7_reloc_emission_witness :
    relocTypeAndOffset { kind := ObjRelocKind.PpcAddr16Lo, address := 8,
                         target_symbol := 0, addend := 0 }
      = (10, R_PPC_ADDR16_LO) :=
  (c7_reloc_emission { kind := ObjRelocKind.PpcAddr16Lo, address := 8,
                       target_symbol := 0, addend := 0 }).1 rfl (by decide)

/-- C1 counterexample: a relocatable ELF with one global hidden absolute
symbol at address 0 decodes to an Object whose symbol carries the Hidden
flag, but the round trip (write_elf then re-decode) drops Hidden: the
encoder maps a symbol with no section and address 0 to SHN_UNDEF, and on
re-parse an undefined symbol has scope Unknown, never Linkage.  The frozen
claim promises identical symbol attributes for every well-formed container.
-/
theorem c1_counterexample_hidden_lost :
    (process_elf elfHiddenAbsZero).map (fun o => o.symbols.map (fun s => s.flags.hidden))
      = Except.ok [true]
    ∧ ((process_elf elfHiddenAbsZero) >>= roundTrip).map
        (fun o => o.symbols.map (fun s => s.flags.hidden))
      = Except.ok [false] := by decide

theorem u32_id {x : Nat} (h : x < 4294967296) : u32 x = x := Nat.mod_eq_of_lt h

theorem u32_zero : u32 0 = 0 := rfl

theorem to_obj_symbol_rt (f2 : ElfFile) (si2 : List (Option Nat)) (nsec : Nat)
    (os : ObjSymbol)
    (hname : os.name ≠ "")
    (haddr : os.address < 4294967296) (hsize : os.size < 4294967296)
    (hsk : os.size_known = true)
    (hgl : os.flags.global = !os.flags.localFlag)
    (hcm : os.flags.common = false)
    (hwl : os.flags.weak = true → os.flags.localFlag = false)
    (hhl : os.flags.hidden = true → os.flags.localFlag = false)
    (hhu : os.flags.hidden = true → os.sectionIdx = none → os.address ≠ 0)
    (hsec : match os.sectionIdx with
      | some i => i < nsec ∧ si2.get? i = some (some i)
          ∧ ∃ sec, f2.sections.get? i = some sec
            ∧ (os.kind = ObjSymbolKind.Section → os.name = sec.name)
      | none => os.kind ≠ ObjSymbolKind.Section) :
    to_obj_symbol f2 (reparseSymbol 1 (encodeSymbol nsec os)) si2 = Except.ok os := by
  obtain ⟨nm, addr, sidx, sz, sk, ⟨g, l, w, c, hd⟩, knd⟩ := os
  dsimp only at hname haddr hsize hsk hgl hcm hwl hhl hhu hsec
  subst hsk
  subst hcm
  subst hgl
  cases sidx with
  | some i =>
      obtain ⟨hlt, hget, sec, hfs, hsecname⟩ := hsec
      cases knd <;> cases l <;> cases w <;> cases hd <;>
        simp_all [to_obj_symbol, reparseSymbol, encodeSymbol, symSectionIndex, idxP,
          u32_id haddr, u32_id hsize, u32_zero, SHN_ABS, if_pos hlt]
  | none =>
      by_cases haz : addr = 0
      · cases knd <;> cases l <;> cases w <;> cases hd <;>
          simp_all [to_obj_symbol, reparseSymbol, encodeSymbol, symSectionIndex, idxP,
            u32_id haddr, u32_id hsize, u32_zero, SHN_ABS]
      · cases knd <;> cases l <;> cases w <;> cases hd <;>
          simp_all [to_obj_symbol, reparseSymbol, encodeSymbol, symSectionIndex, idxP,
            u32_id haddr, u32_id hsize, u32_zero, SHN_ABS]

theorem i32wrap_id {x : Int} (h1 : -2147483648 ≤ x) (h2 : x < 2147483648) :
    i32wrap x = x := by
  unfold i32wrap
  have h3 : (0 : Int) ≤ x + 2147483648 := by omega
  have h4 : x + 2147483648 < 4294967296 := by omega
  rw [Int.emod_eq_of_lt h3 h4]
  omega

theorem alignDown4_le (x : Nat) : alignDown4 x ≤ x := by
  unfold alignDown4
  exact Nat.mul_div_le x 4

theorem alignDown4_add2 {a : Nat} (h : a % 4 = 0) : alignDown4 (a + 2) = a := by
  obtain ⟨k, rfl⟩ := Nat.dvd_of_mod_eq_zero h
  unfold alignDown4
  rw [Nat.mul_add_div (by omega)]
  omega

theorem to_obj_reloc_rt (f2 : ElfFile) (symIdxs : List (Option Nat)) (dat : List Nat)
    (off : Nat) (r : ObjReloc) (ts : ElfSymbol)
    (hal : r.address % 4 = 0) (hbound : r.address + 2 < 4294967296)
    (hlo : -2147483648 ≤ r.addend) (hhi : r.addend < 2147483648)
    (hts : f2.symbols.get? (r.target_symbol + off + 1) = some ts)
    (htk : ts.kind = ESymbolKind.Text ∨ ts.kind = ESymbolKind.Data
        ∨ ts.kind = ESymbolKind.Unknown
        ∨ (ts.kind = ESymbolKind.Section ∧ 0 ≤ r.addend))
    (hidx : idxP symIdxs (r.target_symbol + off + 1) = Except.ok (some r.target_symbol)) :
    to_obj_reloc f2 symIdxs dat (reparseRela (encodeReloc off r)).1
        (reparseRela (encodeReloc off r)).2 = Except.ok r := by
  obtain ⟨k, a, t, ad⟩ := r
  dsimp only at hal hbound hlo hhi hts hidx ⊢
  have hb2 : alignDown4 a + 2 < 4294967296 :=
    lt_of_le_of_lt (by have := alignDown4_le a; omega) hbound
  have hb1 : alignDown4 a < 4294967296 := by omega
  have hba : a < 4294967296 := by omega
  have had4 : alignDown4 a % 4 = 0 := alignDown4_mod a
  cases k <;>
    rcases htk with hk | hk | hk | ⟨hk, hnn⟩ <;>
      (simp_all [to_obj_reloc, reparseRela, encodeReloc, relocTypeAndOffset,
        normalizeRelocKind, u32_id, i32wrap_id hlo hhi, alignDown4_add2,
        alignDown4_of_aligned hal, R_PPC_ADDR32, R_PPC_ADDR16_LO, R_PPC_ADDR16_HI,
        R_PPC_ADDR16_HA, R_PPC_REL24, R_PPC_REL14, R_PPC_UADDR32, R_PPC_EMB_SDA21]
       <;> rw [if_neg (not_lt.mpr hnn)])

theorem symStep_to_genSymbols {f : ElfFile} {kind : ObjKind} {si : List (Option Nat)}
    {st : SymPassState} {sym : ElfSymbol} {st' : SymPassState}
    (hnf : sym.kind ≠ ESymbolKind.File)
    (h : symStep f kind si st sym = Except.ok st') :
    ∃ st1, st1.symbols = st.symbols ∧ st1.symbolIndexes = st.symbolIndexes
      ∧ genSymbols f si st1 sym = Except.ok st' := by
  unfold symStep at h
  obtain ⟨hsy, hsi, hss, hni, hb, hon⟩ := captureLinker_parts st sym
  split at h
  · -- File branch: impossible, kind is not File
    exact absurd (by assumption) hnf
  · -- Section branch
    dsimp only at h
    cases hsec : symSectionIndex sym <;> rw [hsec] at h <;> dsimp only at h
    case none => exact Except.noConfusion h
    case some i =>
      cases hg : f.sections.get? i <;> rw [hg] at h <;> dsimp only at h
      case none => exact Except.noConfusion h
      case some sec =>
        rw [hb] at h
        cases hbd : st.boundary <;> rw [hbd] at h <;> dsimp only at h
        case LookForFile queue =>
          exact ⟨_, by simp [hsy], by simp [hsi], h⟩
        case FilesEnded =>
          exact ⟨_, by simp [hsy], by simp [hsi], h⟩
        case LookForSections fn =>
          cases hip : idxP si i <;> rw [hip] at h <;> try dsimp only at h
          case error => exact Except.noConfusion h
          case ok v =>
            cases v <;> try dsimp only at h
            case none =>
              exact ⟨_, by simp [hsy], by simp [hsi], h⟩
            case some k =>
              cases hal : alLookup (captureLinker st sym).sectionStarts fn <;>
                rw [hal] at h <;> dsimp only at h
              case none => exact Except.noConfusion h
              case some entry =>
                exact ⟨_, by simp [hsy], by simp [hsi], h⟩
  · -- other kinds
    dsimp only at h
    cases hws : sym.symSection <;> rw [hws] at h <;> dsimp only at h
    case Common => exact Except.noConfusion h
    case OtherSec => exact Except.noConfusion h
    case Undefined =>
      exact ⟨_, by simp [hsy], by simp [hsi], h⟩
    case Absolute =>
      exact ⟨_, by simp [hsy], by simp [hsi], h⟩
    case SectionAt i =>
      rw [hb] at h
      cases hbd : st.boundary <;> rw [hbd] at h <;> dsimp only at h
      case LookForFile queue =>
        exact ⟨_, by simp [hsy], by simp [hsi], h⟩
      case FilesEnded =>
        exact ⟨_, by simp [hsy], by simp [hsi], h⟩
      case LookForSections fn =>
        cases hip : idxP si i <;> rw [hip] at h <;> try dsimp only at h
        case error => exact Except.noConfusion h
        case ok v =>
          cases v <;> try dsimp only at h
          case none =>
            exact ⟨_, by simp [hsy], by simp [hsi], h⟩
          case some k =>
            cases hal : alLookup (captureLinker st sym).sectionStarts fn <;>
              rw [hal] at h <;> dsimp only at h
            case none => exact Except.noConfusion h
            case some cur =>
              cases hg : f.sections.get? i <;> rw [hg] at h <;> dsimp only at h
              case none => exact Except.noConfusion h
              case some sec =>
                split at h
                case h_1 e heq => exact Except.noConfusion h
                case h_2 st1 heq =>
                  repeat' split at heq
                  all_goals
                    (injection heq with heq; subst heq
                     exact ⟨_, by simp [hsy], by simp [hsi], h⟩)

theorem genSymbols_append {f : ElfFile} {si : List (Option Nat)} {st : SymPassState}
    {sym : ElfSymbol} {st' : SymPassState}
    (hnn : sym.kind ≠ ESymbolKind.Null) (hnf : sym.kind ≠ ESymbolKind.File)
    (hret : ∀ i, symSectionIndex sym = some i → ∃ k, idxP si i = Except.ok (some k))
    (h : genSymbols f si st sym = Except.ok st') :
    ∃ os, to_obj_symbol f sym si = Except.ok os
      ∧ st'.symbols = st.symbols ++ [os]
      ∧ st'.symbolIndexes = st.symbolIndexes ++ [some st.symbols.length] := by
  unfold genSymbols at h
  rw [if_neg (not_or.mpr ⟨hnn, hnf⟩)] at h
  cases hsec : symSectionIndex sym with
  | none =>
      rw [hsec] at h
      dsimp only at h
      cases hos : to_obj_symbol f sym si <;> rw [hos] at h
      · exact Except.noConfusion h
      · injection h with h
        subst h
        exact ⟨_, rfl, rfl, rfl⟩
  | some i =>
      obtain ⟨k, hik⟩ := hret i hsec
      rw [hsec] at h
      dsimp only at h
      rw [hik] at h
      dsimp only at h
      rw [if_neg (by simp)] at h
      cases hos : to_obj_symbol f sym si <;> rw [hos] at h
      · exact Except.noConfusion h
      · injection h with h
        subst h
        exact ⟨_, rfl, rfl, rfl⟩

theorem symStep_append {f : ElfFile} {kind : ObjKind} {si : List (Option Nat)}
    {st : SymPassState} {sym : ElfSymbol} {st' : SymPassState}
    (hnn : sym.kind ≠ ESymbolKind.Null) (hnf : sym.kind ≠ ESymbolKind.File)
    (hret : ∀ i, symSectionIndex sym = some i → ∃ k, idxP si i = Except.ok (some k))
    (h : symStep f kind si st sym = Except.ok st') :
    ∃ os, to_obj_symbol f sym si = Except.ok os
      ∧ st'.symbols = st.symbols ++ [os]
      ∧ st'.symbolIndexes = st.symbolIndexes ++ [some st.symbols.length] := by
  obtain ⟨st1, h1, h2, hg⟩ := symStep_to_genSymbols hnf h
  obtain ⟨os, hos, h3, h4⟩ := genSymbols_append hnn hnf hret hg
  exact ⟨os, hos, by rw [h3, h1], by rw [h4, h2, h1]⟩

theorem symStep_skip {f : ElfFile} {kind : ObjKind} {si : List (Option Nat)}
    {st : SymPassState} {sym : ElfSymbol} {st' : SymPassState}
    (hk : sym.kind = ESymbolKind.Null ∨ sym.kind = ESymbolKind.File)
    (h : symStep f kind si st sym = Except.ok st') :
    st'.symbols = st.symbols ∧ st'.symbolIndexes = st.symbolIndexes ++ [none] := by
  rcases symStep_inv h with ⟨h1, h2⟩ | ⟨os, hos, h1, h2⟩
  · exact ⟨h1, h2⟩
  · have h4 := (to_obj_symbol_inv hos).2.2.2.2.2.2.2.2.2.1
    rcases hk with hk | hk <;> rcases h4 with h4 | h4 | h4 | h4 <;> rw [hk] at h4 <;>
      exact ESymbolKind.noConfusion h4

theorem processSymbols_exact {f : ElfFile} {kind : ObjKind} {si : List (Option Nat)} :
    ∀ (pairs : List (ElfSymbol × ObjSymbol)) (st st' : SymPassState),
    (∀ p ∈ pairs, p.1.kind ≠ ESymbolKind.Null ∧ p.1.kind ≠ ESymbolKind.File
      ∧ (∀ i, symSectionIndex p.1 = some i → ∃ k, idxP si i = Except.ok (some k))
      ∧ to_obj_symbol f p.1 si = Except.ok p.2) →
    processSymbols f kind si (pairs.map Prod.fst) st = Except.ok st' →
    st'.symbols = st.symbols ++ pairs.map Prod.snd
    ∧ st'.symbolIndexes = st.symbolIndexes
        ++ (List.range' st.symbols.length pairs.length).map some := by
  intro pairs
  induction pairs with
  | nil =>
      intro st st' _ h
      unfold processSymbols at h
      rw [List.map_nil, List.foldlM_nil] at h
      injection h with h
      subst h
      simp
  | cons p ps ih =>
      intro st st' hwf h
      unfold processSymbols at h
      rw [List.map_cons, List.foldlM_cons, bind_ok] at h
      obtain ⟨st1, h1, h2⟩ := h
      obtain ⟨hnn, hnf, hret, hos⟩ := hwf p (by simp)
      obtain ⟨os, hos2, hs1, hi1⟩ := symStep_append hnn hnf hret h1
      have hosp : os = p.2 := by
        have := hos2.symm.trans hos
        injection this
      subst hosp
      obtain ⟨hs2, hi2⟩ := ih st1 st' (fun q hq => hwf q (by simp [hq])) h2
      constructor
      · rw [hs2, hs1]
        simp
      · rw [hi2, hi1, hs1]
        simp [List.range'_succ, List.length_append]

theorem sectionStep_rt (off p : Nat) (acc1 : List ObjSection) (acc2 : List (Option Nat))
    (sec : ObjSection) (h1 : acc1.length = p) (h2 : acc2.length = p) :
    sectionStep (acc1, acc2) (reparseSection (encSec off sec))
      = (acc1 ++ [rtSection p sec], acc2 ++ [some p]) := by
  cases hk : sec.kind <;>
    simp [sectionStep, encSec, hk, reparseSection, reparseSectionKind, sectionKindMap,
      rtSection, h1, h2]

theorem sectionPass_rt (off : Nat) :
    ∀ (secs : List ObjSection) (acc1 : List ObjSection) (acc2 : List (Option Nat)) (p : Nat),
    acc1.length = p → acc2.length = p →
    List.foldl sectionStep (acc1, acc2) (secs.map (fun s => reparseSection (encSec off s)))
      = (acc1 ++ rtMix 0 p secs, acc2 ++ someRange p secs.length) := by
  intro secs
  induction secs with
  | nil =>
      intro acc1 acc2 p h1 h2
      simp [rtMix, someRange]
  | cons s rest ih =>
      intro acc1 acc2 p h1 h2
      rw [List.map_cons, List.foldl_cons, sectionStep_rt off p acc1 acc2 s h1 h2]
      rw [ih (acc1 ++ [rtSection p s]) (acc2 ++ [some p]) (p + 1)
        (by simp [h1]) (by simp [h2])]
      simp [rtMix, someRange, List.range'_succ]

theorem someRange_get {p n i : Nat} (h : i < n) :
    (someRange p n).get? i = some (some (p + i)) := by
  unfold someRange
  rw [List.get?_map, List.get?_range' _ _ h]
  simp

theorem rtMix_get : ∀ (secs : List ObjSection) (j p : Nat) (s : ObjSection),
    secs.get? j = some s → (rtMix j p secs).get? j = some (rtSection (p + j) s) := by
  intro secs
  induction secs with
  | nil =>
      intro j p s hg
      simp at hg
  | cons s0 rest ih =>
      intro j p s hg
      cases j with
      | zero =>
          injection hg with hg
          subst hg
          simp [rtMix]
      | succ j =>
          rw [List.get?_cons_succ] at hg
          have := ih j (p + 1) s hg
          simp only [rtMix, List.get?_cons_succ]
          rw [this]
          congr 2
          omega

theorem rtMix_set : ∀ (secs : List ObjSection) (j p : Nat) (s : ObjSection),
    secs.get? j = some s →
    (rtMix j p secs).set j (rtSectionR (p + j) s) = rtMix (j + 1) p secs := by
  intro secs
  induction secs with
  | nil =>
      intro j p s hg
      simp at hg
  | cons s0 rest ih =>
      intro j p s hg
      cases j with
      | zero =>
          injection hg with hg
          subst hg
          simp [rtMix]
      | succ j =>
          rw [List.get?_cons_succ] at hg
          have := ih j (p + 1) s hg
          simp only [rtMix, List.set_cons_succ]
          rw [show p + (j + 1) = (p + 1) + j from by omega, this]

theorem sectionView_rt (p : Nat) (s : ObjSection)
    (ha : s.address < 4294967296) (hs : s.size < 4294967296)
    (hb : s.kind = ObjSectionKind.Bss → s.data = []) :
    sectionView (rtSectionR p s) = sectionView s := by
  cases hk : s.kind <;>
    simp_all [sectionView, rtSectionR, rtSection, u32_id ha, u32_id hs]

theorem relocTuples_rt (p : Nat) (s : ObjSection) :
    relocTuples (rtSectionR p s) = relocTuples s := rfl

theorem final_views : ∀ (secs : List ObjSection) (j p : Nat),
    secs.length ≤ j →
    (∀ s ∈ secs, s.address < 4294967296 ∧ s.size < 4294967296
      ∧ (s.kind = ObjSectionKind.Bss → s.data = [])) →
    (rtMix j p secs).map sectionView = secs.map sectionView
    ∧ (rtMix j p secs).map relocTuples = secs.map relocTuples := by
  intro secs
  induction secs with
  | nil =>
      intro j p _ _
      simp [rtMix]
  | cons s rest ih =>
      intro j p hj hwf
      cases j with
      | zero => simp at hj
      | succ j =>
          obtain ⟨ha, hs, hb⟩ := hwf s (by simp)
          obtain ⟨ih1, ih2⟩ := ih j (p + 1) (by simpa using hj)
            (fun q hq => hwf q (by simp [hq]))
          constructor
          · simp only [rtMix, List.map_cons]
            rw [ih1, sectionView_rt p s ha hs hb]
          · simp only [rtMix, List.map_cons]
            rw [ih2, relocTuples_rt]

theorem relocFold_rt (f2 : ElfFile) (symIdxs : List (Option Nat)) (dat : List Nat)
    (off : Nat) :
    ∀ (rl : List ObjReloc) (acc : List ObjReloc),
    (∀ r ∈ rl, to_obj_reloc f2 symIdxs dat (reparseRela (encodeReloc off r)).1
        (reparseRela (encodeReloc off r)).2 = Except.ok r) →
    List.foldlM (relocStep f2 symIdxs dat)
        acc (rl.map (fun r => reparseRela (encodeReloc off r)))
      = Except.ok (acc ++ rl) := by
  intro rl
  induction rl with
  | nil =>
      intro acc _
      simp [pure, Except.pure]
  | cons r rest ih =>
      intro acc hok
      rw [List.map_cons, List.foldlM_cons]
      have h1 : relocStep f2 symIdxs dat acc (reparseRela (encodeReloc off r))
          = Except.ok (acc ++ [r]) := by
        unfold relocStep
        rw [hok r (by simp)]
      rw [h1]
      have h2 := ih (acc ++ [r]) (fun q hq => hok q (by simp [hq]))
      simp only [bind, Except.bind]
      rw [h2]
      simp

theorem relocSecStep_rt (f2 : ElfFile) (si2 symIdxs : List (Option Nat)) (off : Nat)
    (secs : List ObjSection) (j : Nat) (sec : ObjSection)
    (hg : secs.get? j = some sec)
    (hf2 : f2.sections.get? j = some (reparseSection (encSec off sec)))
    (hsi : idxP si2 j = Except.ok (some j))
    (hok : ∀ r ∈ sec.relocations,
      to_obj_reloc f2 symIdxs (rtSection (0 + j) sec).data
          (reparseRela (encodeReloc off r)).1 (reparseRela (encodeReloc off r)).2
        = Except.ok r) :
    relocSecStep f2 si2 symIdxs (rtMix j 0 secs) j = Except.ok (rtMix (j + 1) 0 secs) := by
  unfold relocSecStep
  rw [hf2]
  dsimp only
  rw [hsi]
  dsimp only
  rw [rtMix_get secs j 0 sec hg]
  dsimp only
  have hrl : (reparseSection (encSec off sec)).relocs
      = sec.relocations.map (fun r => reparseRela (encodeReloc off r)) := by
    cases hk : sec.kind <;> simp [reparseSection, encSec, hk]
  rw [hrl]
  rw [relocFold_rt f2 symIdxs (rtSection (0 + j) sec).data off sec.relocations
    (rtSection (0 + j) sec).relocations hok]
  dsimp only
  have := rtMix_set secs j 0 sec hg
  rw [show (rtSection (0 + j) sec).relocations ++ sec.relocations = sec.relocations
    from by simp [rtSection]]
  exact congrArg Except.ok this

theorem relocRange_rt (f2 : ElfFile) (si2 symIdxs : List (Option Nat))
    (secs : List ObjSection)
    (hstep : ∀ j sec, secs.get? j = some sec →
      relocSecStep f2 si2 symIdxs (rtMix j 0 secs) j = Except.ok (rtMix (j + 1) 0 secs)) :
    ∀ (m j : Nat), j + m = secs.length →
    List.foldlM (relocSecStep f2 si2 symIdxs) (rtMix j 0 secs) (List.range' j m)
      = Except.ok (rtMix secs.length 0 secs) := by
  intro m
  induction m with
  | zero =>
      intro j hj
      rw [List.range'_zero, List.foldlM_nil]
      rw [Nat.add_zero] at hj
      rw [hj]
      rfl
  | succ m ih =>
      intro j hj
      rw [List.range'_succ, List.foldlM_cons]
      cases hx : secs.get? j with
      | none =>
          have := List.get?_eq_none.mp hx
          omega
      | some sec =>
          rw [hstep j sec hx]
          simp only [bind, Except.bind]
          exact ih (j + 1) (by omega)

theorem encodeSymbol_ekind (n : Nat) (os : ObjSymbol) :
    (reparseSymbol 1 (encodeSymbol n os)).kind
      = (match os.kind with
         | ObjSymbolKind.Unknown => ESymbolKind.Unknown
         | ObjSymbolKind.Function => ESymbolKind.Text
         | ObjSymbolKind.Object => ESymbolKind.Data
         | ObjSymbolKind.Section => ESymbolKind.Section) := by
  cases hw : os.flags.weak <;> cases hl : os.flags.localFlag <;>
    cases hc : os.flags.common <;> cases hk : os.kind <;>
      simp [reparseSymbol, encodeSymbol, hw, hl, hc, hk]

theorem encodeSymbol_ssi (n : Nat) (os : ObjSymbol) :
    symSectionIndex (reparseSymbol 1 (encodeSymbol n os))
      = (match os.sectionIdx with
         | some i => if i < n then some i else none
         | none => none) := by
  cases hsi : os.sectionIdx with
  | some i =>
      by_cases hlt : i < n
      · simp [reparseSymbol, encodeSymbol, symSectionIndex, hsi, hlt]
      · by_cases haz : os.address = 0 <;>
          simp [reparseSymbol, encodeSymbol, symSectionIndex, hsi, hlt, haz, SHN_ABS]
  | none =>
      by_cases haz : os.address = 0 <;>
        simp [reparseSymbol, encodeSymbol, symSectionIndex, hsi, haz, SHN_ABS]

theorem reparseSymbol_pos (p : Nat) (hp : p ≠ 0) (s : RawSym) :
    reparseSymbol p s = reparseSymbol 1 s := by
  unfold reparseSymbol
  dsimp only
  rw [if_neg (show ¬(p = 0 ∧ s.stInfo % 16 = 0) from fun hc => hp hc.1),
      if_neg (show ¬((1 : Nat) = 0 ∧ s.stInfo % 16 = 0) from fun hc => Nat.one_ne_zero hc.1)]

theorem reparseSymbols_eq_map : ∀ (l : List RawSym) (p : Nat), p ≠ 0 →
    reparseSymbols p l = l.map (reparseSymbol 1) := by
  intro l
  induction l with
  | nil => intro p _; rfl
  | cons s rest ih =>
      intro p hp
      show reparseSymbol p s :: reparseSymbols (p + 1) rest = _
      rw [List.map_cons, reparseSymbol_pos p hp s, ih (p + 1) (Nat.succ_ne_zero p)]

theorem get?_cons_append_right {α : Type} (x : α) (pre l : List α) (t : Nat) :
    (x :: (pre ++ l)).get? (t + pre.length + 1) = l.get? t := by
  rw [List.get?_cons_succ, List.get?_append_right (by omega)]
  congr 1
  omega

theorem written_sections (obj : ObjInfo) (off : Nat) :
    (reparseElf (writtenElf obj off)).sections
      = obj.sections.map (fun s => reparseSection (encSec off s)) := by
  show (obj.sections.map (encSec off)).map reparseSection = _
  rw [List.map_map]
  rfl

theorem written_symbols (obj : ObjInfo) (off : Nat) :
    (reparseElf (writtenElf obj off)).symbols
      = reparseSymbol 0 nullRawSym ::
        ((if obj.name = "" then [] else [reparseSymbol 1 (fileRawSym obj.name)])
          ++ obj.symbols.map
              (fun os => reparseSymbol 1 (encodeSymbol obj.sections.length os))) := by
  show reparseSymbols 0 (nullRawSym :: _) = _
  rw [show ∀ (l : List RawSym), reparseSymbols 0 (nullRawSym :: l)
      = reparseSymbol 0 nullRawSym :: reparseSymbols 1 l from fun l => rfl]
  rw [reparseSymbols_eq_map _ 1 Nat.one_ne_zero]
  by_cases hnm : obj.name = "" <;> simp [hnm]

theorem written_sectionPass (obj : ObjInfo) (off : Nat) :
    sectionPass (reparseElf (writtenElf obj off)).sections
      = (rtMix 0 0 obj.sections, someRange 0 obj.sections.length) := by
  rw [written_sections]
  unfold sectionPass
  rw [sectionPass_rt off obj.sections [] [] 0 rfl rfl]
  simp

theorem foldlM_skip {f : ElfFile} {kind : ObjKind} {si : List (Option Nat)} :
    ∀ (l : List ElfSymbol) (st st' : SymPassState),
    (∀ s ∈ l, s.kind = ESymbolKind.Null ∨ s.kind = ESymbolKind.File) →
    List.foldlM (symStep f kind si) st l = Except.ok st' →
    st'.symbols = st.symbols
    ∧ st'.symbolIndexes = st.symbolIndexes ++ List.replicate l.length none := by
  intro l
  induction l with
  | nil =>
      intro st st' _ h
      rw [List.foldlM_nil] at h
      injection h with h
      subst h
      simp
  | cons s rest ih =>
      intro st st' hk h
      rw [List.foldlM_cons, bind_ok] at h
      obtain ⟨st1, h1, h2⟩ := h
      obtain ⟨hs1, hi1⟩ := symStep_skip (hk s (by simp)) h1
      obtain ⟨hs2, hi2⟩ := ih st1 st' (fun q hq => hk q (by simp [hq])) h2
      refine ⟨by rw [hs2, hs1], ?_⟩
      rw [hi2, hi1]
      simp [List.replicate_succ]

theorem idx_skip {off M t : Nat} (ht : t < M) :
    (List.replicate (off + 1) (none : Option Nat) ++ someRange 0 M).get? (t + off + 1)
      = some (some t) := by
  rw [List.get?_append_right (by simp)]
  have h1 : t + off + 1 - (List.replicate (off + 1) (none : Option Nat)).length = t := by
    simp
  rw [h1]
  have h2 := @someRange_get 0 M t ht
  simpa using h2

theorem c1_core (obj obj2 : ObjInfo) (off : Nat)
    (hsym : ∀ os ∈ obj.symbols,
      os.name ≠ "" ∧ os.address < 4294967296 ∧ os.size < 4294967296
      ∧ os.size_known = true
      ∧ os.flags.global = !os.flags.localFlag
      ∧ os.flags.common = false
      ∧ (os.flags.weak = true → os.flags.localFlag = false)
      ∧ (os.flags.hidden = true → os.flags.localFlag = false)
      ∧ (os.flags.hidden = true → os.sectionIdx = none → os.address ≠ 0)
      ∧ (∀ i, os.sectionIdx = some i → i < obj.sections.length)
      ∧ (os.sectionIdx = none → os.kind ≠ ObjSymbolKind.Section)
      ∧ (os.kind = ObjSymbolKind.Section → ∀ i, os.sectionIdx = some i →
          ∀ sec, obj.sections.get? i = some sec → os.name = sec.name))
    (hsec : ∀ sec ∈ obj.sections,
      sec.address < 4294967296 ∧ sec.size < 4294967296
      ∧ (sec.kind = ObjSectionKind.Bss → sec.data = [])
      ∧ ∀ r ∈ sec.relocations,
          r.address % 4 = 0 ∧ r.address + 2 < 4294967296
          ∧ r.target_symbol < obj.symbols.length
          ∧ -2147483648 ≤ r.addend ∧ r.addend < 2147483648
          ∧ (∀ ts, obj.symbols.get? r.target_symbol = some ts →
              ts.kind = ObjSymbolKind.Section → 0 ≤ r.addend))
    (hpre : (if obj.name = "" then ([] : List ElfSymbol)
        else [reparseSymbol 1 (fileRawSym obj.name)]).length = off)
    (h : process_elf (reparseElf (writtenElf obj off)) = Except.ok obj2) :
    obj2.symbols = obj.symbols
    ∧ obj2.sections.map sectionView = obj.sections.map sectionView
    ∧ obj2.sections.map relocTuples = obj.sections.map relocTuples := by
  obtain ⟨kind2, st, sections2, hps, hrp, ho1, ho2⟩ := process_elf_ok_parts h
  rw [written_sectionPass] at hps hrp
  dsimp only at hps hrp
  rw [written_symbols] at hps
  -- symbol pass
  unfold processSymbols at hps
  rw [show reparseSymbol 0 nullRawSym ::
        ((if obj.name = "" then ([] : List ElfSymbol)
          else [reparseSymbol 1 (fileRawSym obj.name)])
          ++ obj.symbols.map
              (fun os => reparseSymbol 1 (encodeSymbol obj.sections.length os)))
      = (reparseSymbol 0 nullRawSym ::
          (if obj.name = "" then ([] : List ElfSymbol)
            else [reparseSymbol 1 (fileRawSym obj.name)]))
          ++ obj.symbols.map
              (fun os => reparseSymbol 1 (encodeSymbol obj.sections.length os))
    from by simp] at hps
  rw [List.foldlM_append, bind_ok] at hps
  obtain ⟨st1, hp1, hp2⟩ := hps
  obtain ⟨hst1s, hst1i⟩ := foldlM_skip _ initSymState st1
    (by
      intro s hs
      rcases List.mem_cons.mp hs with hs | hs
      · subst hs
        exact Or.inl rfl
      · right
        by_cases hnm : obj.name = ""
        · rw [if_pos hnm] at hs
          exact absurd hs (List.not_mem_nil s)
        · rw [if_neg hnm] at hs
          rw [List.mem_singleton.mp hs]
          simp [reparseSymbol, fileRawSym, SHN_ABS])
    hp1
  have hst1s2 : st1.symbols = [] := by rw [hst1s]; rfl
  have hst1i2 : st1.symbolIndexes = List.replicate (off + 1) none := by
    rw [hst1i]
    simp [initSymState, hpre]
  -- encoded symbol pairs
  have hmm : obj.symbols.map (fun os => reparseSymbol 1 (encodeSymbol obj.sections.length os))
      = (obj.symbols.map (fun os =>
          (reparseSymbol 1 (encodeSymbol obj.sections.length os), os))).map Prod.fst := by
    rw [List.map_map]
    rfl
  rw [hmm] at hp2
  obtain ⟨hsts, hsti⟩ := processSymbols_exact
    (obj.symbols.map (fun os => (reparseSymbol 1 (encodeSymbol obj.sections.length os), os)))
    st1 st
    (by
      intro p hp
      rw [List.mem_map] at hp
      obtain ⟨os, hos, rfl⟩ := hp
      obtain ⟨hn1, ha1, hs1, hk1, hg1, hc1, hw1, hh1, hu1, hi1, hns1, hsn1⟩ := hsym os hos
      refine ⟨?_, ?_, ?_, ?_⟩
      · rw [encodeSymbol_ekind]
        cases hk : os.kind <;> simp
      · rw [encodeSymbol_ekind]
        cases hk : os.kind <;> simp
      · intro i hi
        rw [encodeSymbol_ssi] at hi
        cases hsi : os.sectionIdx with
        | none =>
            rw [hsi] at hi
            exact absurd hi (by simp)
        | some i0 =>
            rw [hsi] at hi
            dsimp only at hi
            rw [if_pos (hi1 i0 hsi)] at hi
            injection hi with hi
            subst hi
            refine ⟨i0, ?_⟩
            rw [idxP_ok]
            have hq := @someRange_get 0 obj.sections.length i0 (hi1 i0 hsi)
            simpa using hq
      · apply to_obj_symbol_rt _ _ obj.sections.length os hn1 ha1 hs1 hk1 hg1 hc1 hw1 hh1 hu1
        cases hsi : os.sectionIdx with
        | some i0 =>
            dsimp only
            refine ⟨hi1 i0 hsi, ?_, ?_⟩
            · have hq := @someRange_get 0 obj.sections.length i0 (hi1 i0 hsi)
              simpa using hq
            · rw [written_sections]
              have hlt := hi1 i0 hsi
              cases hgx : obj.sections.get? i0 with
              | none =>
                  have := List.get?_eq_none.mp hgx
                  omega
              | some sec0 =>
                  refine ⟨reparseSection (encSec off sec0), ?_, ?_⟩
                  · rw [List.get?_map, hgx]
                    rfl
                  · intro hks
                    have hnm2 := hsn1 hks i0 hsi sec0 hgx
                    cases hkk : sec0.kind <;>
                      simp [reparseSection, encSec, hkk, hnm2]
        | none =>
            dsimp only
            exact hns1 hsi)
    hp2
  have hsyms_final : st.symbols = obj.symbols := by
    rw [hsts, hst1s2]
    simp only [List.map_map, List.nil_append]
    exact List.map_id _
  have hsti2 : st.symbolIndexes
      = List.replicate (off + 1) none ++ someRange 0 obj.symbols.length := by
    rw [hsti, hst1i2, hst1s2]
    simp [someRange]
  have hn : (reparseElf (writtenElf obj off)).sections.length = obj.sections.length := by
    rw [written_sections]
    exact List.length_map _ _
  have hstep : ∀ j sec, obj.sections.get? j = some sec →
      relocSecStep (reparseElf (writtenElf obj off)) (someRange 0 obj.sections.length)
          st.symbolIndexes (rtMix j 0 obj.sections) j
        = Except.ok (rtMix (j + 1) 0 obj.sections) := by
    intro j sec hg
    have hjlt : j < obj.sections.length := by
      by_cases hjl : j < obj.sections.length
      · exact hjl
      · rw [List.get?_eq_none.mpr (by omega)] at hg
        exact Option.noConfusion hg
    apply relocSecStep_rt _ _ _ off obj.sections j sec hg
    · rw [written_sections, List.get?_map, hg]
      rfl
    · rw [idxP_ok]
      have hq := @someRange_get 0 obj.sections.length j hjlt
      simpa using hq
    · intro r hr
      obtain ⟨-, -, -, hrel⟩ := hsec sec (List.get?_mem hg)
      obtain ⟨hal, hb2, htlt, hlo, hhi, hsect⟩ := hrel r hr
      cases hts0 : obj.symbols.get? r.target_symbol with
      | none =>
          have := List.get?_eq_none.mp hts0
          omega
      | some ts0 =>
          apply to_obj_reloc_rt _ _ _ off r
            (reparseSymbol 1 (encodeSymbol obj.sections.length ts0)) hal hb2 hlo hhi
          · rw [written_symbols]
            have hq := get?_cons_append_right (reparseSymbol 0 nullRawSym)
              (if obj.name = "" then [] else [reparseSymbol 1 (fileRawSym obj.name)])
              (obj.symbols.map (fun os => reparseSymbol 1 (encodeSymbol obj.sections.length os)))
              r.target_symbol
            rw [hpre] at hq
            rw [hq, List.get?_map, hts0]
            rfl
          · rw [encodeSymbol_ekind]
            cases hk0 : ts0.kind
            · simp
            · simp
            · simp
            · simp
              exact hsect ts0 hts0 hk0
          · rw [hsti2, idxP_ok]
            exact idx_skip htlt
  have hrange := relocRange_rt (reparseElf (writtenElf obj off))
      (someRange 0 obj.sections.length) st.symbolIndexes obj.sections hstep
      obj.sections.length 0 (by omega)
  unfold relocPass at hrp
  rw [hn, List.range_eq_range'] at hrp
  rw [hrange] at hrp
  injection hrp with hrp
  obtain ⟨hv1, hv2⟩ := final_views obj.sections obj.sections.length 0 (le_refl _)
    (fun s hs => ⟨(hsec s hs).1, (hsec s hs).2.1, (hsec s hs).2.2.1⟩)
  refine ⟨by rw [ho1, hsyms_final], ?_, ?_⟩
  · rw [ho2, ← hrp, hv1]
  · rw [ho2, ← hrp, hv2]

/-- C1 (amended): for every Object whose symbols and sections are
well-formed for the 32-bit container (rtSymWf/rtSecWf: coherent flag set,
no common symbols, a hidden symbol is not local and not an address-0
no-section symbol, u32-range addresses/sizes, 4-byte-aligned relocation
addresses with i32-range addends, non-negative addends on section-kind
targets), re-serializing with write_elf and decoding back with process_elf
reproduces the symbol list exactly, and every section keeps its name, kind,
address, size, byte-identical contents, and relocation
(address, kind, target, addend) tuples. -/
theorem c1_round_trip_amended (obj obj2 : ObjInfo)
    (hsym : ∀ os ∈ obj.symbols, rtSymWf obj os)
    (hsec : ∀ sec ∈ obj.sections, rtSecWf obj sec)
    (h : roundTrip obj = Except.ok obj2) :
    obj2.symbols = obj.symbols
    ∧ obj2.sections.map sectionView = obj.sections.map sectionView
    ∧ obj2.sections.map relocTuples = obj.sections.map relocTuples := by
  have hsym2 : ∀ os ∈ obj.symbols,
      os.name ≠ "" ∧ os.address < 4294967296 ∧ os.size < 4294967296
      ∧ os.size_known = true
      ∧ os.flags.global = !os.flags.localFlag
      ∧ os.flags.common = false
      ∧ (os.flags.weak = true → os.flags.localFlag = false)
      ∧ (os.flags.hidden = true → os.flags.localFlag = false)
      ∧ (os.flags.hidden = true → os.sectionIdx = none → os.address ≠ 0)
      ∧ (∀ i, os.sectionIdx = some i → i < obj.sections.length)
      ∧ (os.sectionIdx = none → os.kind ≠ ObjSymbolKind.Section)
      ∧ (os.kind = ObjSymbolKind.Section → ∀ i, os.sectionIdx = some i →
          ∀ sec, obj.sections.get? i = some sec → os.name = sec.name) := by
    intro os hos
    obtain ⟨h1, h2, h3, h4, h5, h6, h7, h8, h9, h10⟩ := hsym os hos
    refine ⟨h1, h2, h3, h4, h5, h6, h7, h8, h9, ?_, ?_, ?_⟩
    · intro i hi
      rw [hi] at h10
      exact h10.1
    · intro hn
      rw [hn] at h10
      exact h10
    · intro hks i hi sec hg
      rw [hi] at h10
      have h11 := h10.2 hks
      rw [hg] at h11
      exact h11
  have hsec2 : ∀ sec ∈ obj.sections,
      sec.address < 4294967296 ∧ sec.size < 4294967296
      ∧ (sec.kind = ObjSectionKind.Bss → sec.data = [])
      ∧ ∀ r ∈ sec.relocations,
          r.address % 4 = 0 ∧ r.address + 2 < 4294967296
          ∧ r.target_symbol < obj.symbols.length
          ∧ -2147483648 ≤ r.addend ∧ r.addend < 2147483648
          ∧ (∀ ts, obj.symbols.get? r.target_symbol = some ts →
              ts.kind = ObjSymbolKind.Section → 0 ≤ r.addend) := by
    intro s hs
    obtain ⟨h1, h2, h3, h4⟩ := hsec s hs
    refine ⟨h1, h2, h3, ?_⟩
    intro r hr
    obtain ⟨g1, g2, g3, g4, g5, g6⟩ := h4 r hr
    refine ⟨g1, g2, g3, g4, g5, ?_⟩
    intro ts hts hk
    rw [hts] at g6
    exact g6 hk
  unfold roundTrip write_elf at h
  by_cases hall : (obj.sections.all
      (fun s => decide (s.kind = ObjSectionKind.Bss)
        || decide (s.data.length = s.size))) = true
  · rw [if_pos hall] at h
    dsimp only at h
    by_cases hnm : obj.name = ""
    · rw [if_pos hnm] at h
      exact c1_core obj obj2 0 hsym2 hsec2 (by rw [if_pos hnm]; rfl) h
    · rw [if_neg hnm] at h
      exact c1_core obj obj2 1 hsym2 hsec2 (by rw [if_neg hnm]; rfl) h
  · rw [if_neg hall] at h
    exact Except.noConfusion h

/-- Witness for c1_round_trip_amended: the well-formed example Object
round-trips to an Object with the same symbols, section views, and
relocation tuples. -/
theorem c1_round_trip_amended_witness :
    ∃ obj2, roundTrip elfExampleObj = Except.ok obj2
      ∧ obj2.symbols = elfExampleObj.symbols
      ∧ obj2.sections.map sectionView = elfExampleObj.sections.map sectionView
      ∧ obj2.sections.map relocTuples = elfExampleObj.sections.map relocTuples := by
  have hsym : ∀ os ∈ elfExampleObj.symbols, rtSymWf elfExampleObj os := by
    intro os hos
    simp [elfExampleObj] at hos
    subst hos
    exact ⟨by decide, by decide, by decide, by decide, by decide, by decide,
      by decide, by decide, by decide, by decide, fun h => absurd h (by decide)⟩
  have hsec : ∀ sec ∈ elfExampleObj.sections, rtSecWf elfExampleObj sec := by
    intro s hs
    simp [elfExampleObj] at hs
    subst hs
    refine ⟨by decide, by decide, by decide, ?_⟩
    intro r hr
    simp at hr
    subst hr
    exact ⟨by decide, by decide, by decide, by decide, by decide,
      fun hk => absurd hk (by decide)⟩
  have hok : roundTrip elfExampleObj = Except.ok
      { module_id := 0, kind := ObjKind.Relocatable,
        architecture := ObjArchitecture.PowerPc, name := "",
        symbols := [{ name := "foo", address := 256, sectionIdx := some 0, size := 8,
                      size_known := true,
                      flags := { global := true, localFlag := false, weak := false,
                                 common := false, hidden := false },
                      kind := ObjSymbolKind.Function }],
        sections := [{ name := ".text", kind := ObjSectionKind.Code, address := 256,
                       size := 8, data := [0, 1, 2, 3, 4, 5, 6, 7], align := 4,
                       index := 0, elf_index := 0,
                       relocations := [{ kind := ObjRelocKind.PpcAddr16Lo, address := 4,
                                         target_symbol := 0, addend := 2 }],
                       original_address := 0, file_offset := 0, section_known := true }],
        entry := 0, sda2_base := none, sda_base := none, stack_address := none,
        stack_end := none, db_stack_addr := none, arena_lo := none, arena_hi := none,
        splits := [], link_order := [] } := by decide
  exact ⟨_, hok, c1_round_trip_amended elfExampleObj _ hsym hsec hok⟩

end Decomp
